import Mathlib

/-!
Shallow embedding of the document-understanding pipeline of the
Agentic-Form-Analyser repository (files `src/processors/field_parser.py`,
`src/processors/table_parser.py`, `src/processors/schema_detector.py`,
`src/qa/retriever.py`, `src/qa/qa_engine.py`), together with theorems that
settle the specification claims about it.

Modelling conventions:
* Python `str` is modelled by Lean `String` / `List Char`; the whitespace set
  and the regex classes `\w`, `\d`, `[A-Za-z]` are modelled over their ASCII
  fragment (all catalog data and patterns of the program are ASCII).
* Python `float` is modelled by `ℚ`; the non-finite spellings accepted by
  `float()` (`inf`, `nan`, …) are recognised (for boolean tests) but carry no
  rational value.
* Python `dict` (insertion-ordered, last-write-wins) is modelled by an
  association list with an in-place-replacing `dictSet`.
* The regular expressions of the source are implemented as bespoke scanning
  functions reproducing CPython `re` backtracking semantics for these
  particular patterns (greedy / lazy quantifiers, `MULTILINE` anchors).
-/

set_option autoImplicit false
set_option maxHeartbeats 1000000

namespace FormAnalyser

/-- Python whitespace (ASCII fragment): the character set accepted by
`str.split()` / `str.strip()` and by the regex class `\s`. -/
def isPySpace (c : Char) : Bool :=
  c = ' ' || c = '\t' || c = '\n' || c = '\r' || c = '\x0b' || c = '\x0c'

/-- `str.strip()` on a character list. -/
def pyStripL (l : List Char) : List Char :=
  ((l.dropWhile isPySpace).reverse.dropWhile isPySpace).reverse

/-- Python `str.strip()`. -/
def pyStrip (s : String) : String := ⟨pyStripL s.data⟩

theorem length_dropWhile_le {α : Type} (p : α → Bool) (l : List α) :
    (l.dropWhile p).length ≤ l.length := by
  induction l with
  | nil => simp
  | cons c cs ih =>
    by_cases h : p c <;> simp [List.dropWhile_cons, h] <;> omega

/-- Python `str.split()` (split on whitespace runs, dropping empty pieces).
Structurally recursive: a non-space character either starts a new word (next
character is space or end) or extends the first word of the tail's split. -/
def pyWords : List Char → List (List Char)
  | [] => []
  | c :: cs =>
    if isPySpace c then pyWords cs
    else
      match cs with
      | [] => [[c]]
      | d :: _ =>
        if isPySpace d then [c] :: pyWords cs
        else
          match pyWords cs with
          | [] => [[c]]
          | w :: rest => (c :: w) :: rest

/-- `' '.join(s.split())`: whitespace-collapsing used by field-name
normalization. -/
def joinWordsL (l : List Char) : List Char := List.intercalate [' '] (pyWords l)

/-- Python `str.lower()` (ASCII fragment, which covers all catalog data). -/
def pyLower (s : String) : String := ⟨s.data.map Char.toLower⟩

/-- Python substring test `needle in hay` on character lists. -/
def containsSubL (needle hay : List Char) : Bool :=
  hay.tails.any (fun t => needle.isPrefixOf t)

/-- Python substring test `needle in hay`. -/
def containsSub (needle hay : String) : Bool := containsSubL needle.data hay.data

/-- Python `str.split(sep)` for a single separator character
(used as `context.split('\n')`). -/
def splitOnChar (sep : Char) (l : List Char) : List (List Char) :=
  match l with
  | [] => [[]]
  | c :: cs =>
    if c = sep then [] :: splitOnChar sep cs
    else
      match splitOnChar sep cs with
      | [] => [[c]]
      | w :: ws => (c :: w) :: ws

/-- Decimal rendering of a natural number, the embedding of Python `str(i)`
for the 1-based indices used in generated field names. -/
def natStr (n : Nat) : String := ⟨Nat.toDigits 10 n⟩

/-- ASCII decimal digit test (embedding of the regex class `\d`; the source
data never exercises non-ASCII digits). -/
def isDigitChar (c : Char) : Bool := '0' ≤ c && c ≤ '9'

/-- ASCII letter test (the regex class `[A-Za-z]`). -/
def isAsciiAlpha (c : Char) : Bool := ('a' ≤ c && c ≤ 'z') || ('A' ≤ c && c ≤ 'Z')

/-- The regex class `\w` (ASCII fragment). -/
def isWordChar (c : Char) : Bool := isAsciiAlpha c || isDigitChar c || c = '_'

/-- The maximal word-character runs of a text, in order. -/
def wordRuns : List Char → List (List Char)
  | [] => []
  | c :: cs =>
    if isWordChar c then
      match cs with
      | [] => [[c]]
      | d :: _ =>
        if isWordChar d then
          match wordRuns cs with
          | [] => [[c]]
          | r :: rest => (c :: r) :: rest
        else [c] :: wordRuns cs
    else wordRuns cs

/-- Tokens of the regex `\b\w{3,}\b` over a text: the maximal word-character
runs of length at least 3 (a maximal run shorter than 3 yields no match). -/
def wordTokens (l : List Char) : List (List Char) :=
  (wordRuns l).filter (fun r => 3 ≤ r.length)

/-- The *set* of `\b\w{3,}\b` tokens of a string (Python code builds a `set`;
we keep first occurrences, which has the same membership). -/
def termSet (s : String) : List (List Char) := (wordTokens s.data).dedup

/-- Size of the intersection of two term sets (Python `len(a & b)`). -/
def overlapCount (a b : List (List Char)) : Nat :=
  (a.filter (fun t => b.contains t)).length

/-! ### Python `float()` parsing

`float(s)` accepts an optionally signed decimal literal (digits may be
separated by single underscores), an optional fraction and exponent, or the
non-finite spellings `inf`/`infinity`/`nan`.  Non-finite values have no `ℚ`
counterpart; they are tracked separately and only ever feed boolean
numericity tests (no value produced by this repository's pipeline is
non-finite). -/

/-- Result of a successful Python `float()` call. -/
inductive PyFloat where
  | finite (q : ℚ)
  | nonfinite
deriving DecidableEq, Repr

/-- Consume a run of digits possibly separated by single underscores
(CPython's numeric-literal rule: an underscore must sit between two digits).
Returns the digit characters and the unconsumed rest. -/
def udRun (l : List Char) : List Char × List Char :=
  match l with
  | [] => ([], [])
  | c :: cs =>
    if isDigitChar c then
      match cs with
      | '_' :: c2 :: cs2 =>
        if isDigitChar c2 then
          let p := udRun (c2 :: cs2)
          (c :: p.1, p.2)
        else ([c], '_' :: c2 :: cs2)
      | '_' :: [] => ([c], ['_'])
      | [] => ([c], [])
      | c2 :: cs2 =>
        let p := udRun (c2 :: cs2)
        (c :: p.1, p.2)
    else ([], c :: cs)

/-- Numeric value of a digit-character list. -/
def digitsVal (ds : List Char) : Nat :=
  ds.foldl (fun a c => 10 * a + (c.toNat - '0'.toNat)) 0

/-- Exponent suffix `[(e|E) [sign] digits]`; `none` on a malformed suffix,
`some e` when the whole rest is a (possibly empty) well-formed suffix. -/
def pyExpPart (l : List Char) : Option Int :=
  match l with
  | [] => some 0
  | e :: rest =>
    if e = 'e' ∨ e = 'E' then
      let (sgn, r1) : Int × List Char :=
        match rest with
        | '+' :: r => (1, r)
        | '-' :: r => (-1, r)
        | r => (1, r)
      let (ds, r2) := udRun r1
      if ds ≠ [] ∧ r2 = [] then some (sgn * digitsVal ds) else none
    else none

/-- Scale a rational by a (possibly negative) power of ten. -/
def qShift (m : ℚ) (e : Int) : ℚ :=
  if 0 ≤ e then m * (10 : ℚ) ^ e.toNat else m / (10 : ℚ) ^ (-e).toNat

/-- Python `float(s)`: `none` when `float` raises `ValueError`. -/
def pyFloat? (s : String) : Option PyFloat :=
  let l := pyStripL s.data
  let (neg, body) : Bool × List Char :=
    match l with
    | '+' :: r => (false, r)
    | '-' :: r => (true, r)
    | r => (false, r)
  let low := body.map Char.toLower
  if low = "inf".data ∨ low = "infinity".data ∨ low = "nan".data then
    some .nonfinite
  else
    let (ip, r1) := udRun body
    let next : Option (ℚ × List Char) :=
      match r1 with
      | '.' :: r2 =>
        let (fp, r3) := udRun r2
        if ip = [] ∧ fp = [] then none
        else some ((digitsVal ip : ℚ) + (digitsVal fp : ℚ) / (10 : ℚ) ^ fp.length, r3)
      | _ => if ip = [] then none else some ((digitsVal ip : ℚ), r1)
    match next with
    | none => none
    | some (m, r) =>
      match pyExpPart r with
      | none => none
      | some e => some (.finite (qShift (if neg then -m else m) e))

/-- Whether `float(s)` succeeds (used by boolean numericity tests). -/
def pyFloatAccepts (s : String) : Bool := (pyFloat? s).isSome

/-- The rational value of `float(s)`, when finite. -/
def pyFloatVal (s : String) : Option ℚ :=
  match pyFloat? s with
  | some (.finite q) => some q
  | _ => none

end FormAnalyser

namespace TableParser

open FormAnalyser

/-! ### `src/processors/table_parser.py` -/

/-- `ParsedTable` (table_parser.py, lines 12-20). -/
structure ParsedTable where
  headers : List String
  rows : List (List String)
  column_count : Nat
  row_count : Nat
  has_header : Bool
  table_type : Option String
deriving DecidableEq, Repr

/-- Cell cleaning `str(cell).strip() if cell else ""` (cells are strings, and
`strip` of the empty string is itself empty, so this is `strip`). -/
def cleanCell (s : String) : String := pyStrip s

/-- `max(len(row) for row in table)` (callers guard against empty tables, on
which Python `max` would raise; the `0` initial value is then never the
maximum). -/
def maxRowLen (t : List (List String)) : Nat :=
  t.foldl (fun a r => max a r.length) 0

/-- Right-pad a row with empty strings to `n` cells (the `while` loop of
`_normalize_table`). -/
def padTo (n : Nat) (r : List String) : List String :=
  r ++ List.replicate (n - r.length) ""

/-- `TableParser._normalize_table`. -/
def normalizeTable (t : List (List String)) : List (List String) :=
  if t = [] then []
  else t.map (fun r => padTo (maxRowLen t) (r.map cleanCell))

/-- The `re.sub(r'[\$,€£%\s]', '', value)` cleaning step of `_is_numeric`
and of the aggregation helpers. -/
def stripNumFormat (s : String) : String :=
  ⟨s.data.filter (fun c =>
    !(c = '$' || c = ',' || c = '€' || c = '£' || c = '%' || isPySpace c))⟩

/-- `TableParser._is_numeric`. -/
def isNumericCell (s : String) : Bool :=
  s ≠ "" && pyFloatAccepts (stripNumFormat s)

/-- The common-header keyword list of `_detect_headers`. -/
def commonHeaders : List String :=
  ["name", "date", "amount", "total", "description", "id", "number",
   "quantity", "price", "item", "type", "status", "value", "count"]

/-- `TableParser._detect_headers` (on an already-normalized table). -/
def detectHeaders (t : List (List String)) : Bool × List String :=
  if t.length < 2 then (false, [])
  else
    let first := t.headD []
    let second := (t.drop 1).headD []
    let firstRowTextRatio : ℚ :=
      ((first.filter (fun c => c ≠ "" && !isNumericCell c)).length : ℚ) /
        (max 1 first.length : ℚ)
    let hs1 : Nat := if firstRowTextRatio > 1/2 then 1 else 0
    let secondRowNumericRatio : ℚ :=
      ((second.filter (fun c => c ≠ "" && isNumericCell c)).length : ℚ) /
        (max 1 second.length : ℚ)
    let hs2 : Nat := if secondRowNumericRatio > firstRowTextRatio then 1 else 0
    let hs3 : Nat :=
      if first.any (fun c => c ≠ "" && commonHeaders.any (fun h => containsSub h (pyLower c)))
      then 1 else 0
    let hs4 : Nat :=
      if 2 < t.length then
        let otherRowsNumeric : List ℚ :=
          (t.drop 1).map (fun r =>
            ((r.filter isNumericCell).length : ℚ) / (max 1 r.length : ℚ))
        let avgNumeric : ℚ := otherRowsNumeric.sum / (otherRowsNumeric.length : ℚ)
        let firstNumeric : ℚ :=
          ((first.filter isNumericCell).length : ℚ) / (max 1 first.length : ℚ)
        if firstNumeric < avgNumeric - 1/5 then 1 else 0
      else 0
    let headerScore := hs1 + hs2 + hs3 + hs4
    if 2 ≤ headerScore then (true, first) else (false, [])

/-- `TableParser._infer_table_type` (the `rows` argument is unused by the
source as well). -/
def inferTableType (headers : List String) : Option String :=
  let joined : String := String.intercalate " " (headers.map pyLower)
  if ["amount", "total", "price", "cost", "balance"].any (fun h => containsSub h joined)
  then some "financial"
  else if ["name", "email", "phone", "address"].any (fun h => containsSub h joined)
  then some "contact"
  else if ["date", "time", "schedule", "due"].any (fun h => containsSub h joined)
  then some "schedule"
  else if ["item", "quantity", "stock", "product"].any (fun h => containsSub h joined)
  then some "inventory"
  else some "general"

/-- The synthetic header list `["Column 1", …, "Column N"]`. -/
def syntheticHeaders (n : Nat) : List String :=
  (List.range n).map (fun i => "Column " ++ natStr (i + 1))

/-- One iteration of the loop body of `TableParser.parse`: `none` exactly
when the loop `continue`s without emitting a table. -/
def parseOneTable (t : List (List String)) : Option ParsedTable :=
  if t = [] then none
  else
    let normalized := normalizeTable t
    if normalized = [] then none
    else
      let det := detectHeaders normalized
      let headers :=
        if det.1 then det.2 else syntheticHeaders (normalized.headD []).length
      let rows := if det.1 then normalized.drop 1 else normalized
      some { headers := headers
             rows := rows
             column_count := headers.length
             row_count := rows.length
             has_header := det.1
             table_type := inferTableType headers }

/-- `TableParser.parse`. -/
def tableParse (ts : List (List (List String))) : List ParsedTable :=
  ts.filterMap parseOneTable

theorem le_foldl_max (t : List (List String)) (a : Nat) :
    a ≤ t.foldl (fun a r => max a r.length) a := by
  induction t generalizing a with
  | nil => simp
  | cons r rs ih => exact le_trans (Nat.le_max_left _ _) (ih _)

theorem length_le_foldl_max (t : List (List String)) (a : Nat) {r : List String}
    (h : r ∈ t) : r.length ≤ t.foldl (fun a r => max a r.length) a := by
  induction t generalizing a with
  | nil => cases h
  | cons r' rs ih =>
    rcases List.mem_cons.mp h with rfl | hmem
    · exact le_trans (Nat.le_max_right _ _) (le_foldl_max _ _)
    · exact ih _ hmem

theorem length_le_maxRowLen {t : List (List String)} {r : List String} (h : r ∈ t) :
    r.length ≤ maxRowLen t :=
  length_le_foldl_max t 0 h

theorem padTo_length {n : Nat} {r : List String} (h : r.length ≤ n) :
    (padTo n r).length = n := by
  simp [padTo]
  omega

/-- Every row of a normalized nonempty table has exactly the maximum input
row width. -/
theorem normalizeTable_row_length {t : List (List String)} {r : List String}
    (ht : t ≠ []) (h : r ∈ normalizeTable t) : r.length = maxRowLen t := by
  unfold normalizeTable at h
  rw [if_neg ht] at h
  obtain ⟨row, hrow, rfl⟩ := List.mem_map.mp h
  have hle : (row.map cleanCell).length ≤ maxRowLen t := by
    rw [List.length_map]
    exact length_le_maxRowLen hrow
  exact padTo_length hle

theorem normalizeTable_length (t : List (List String)) :
    (normalizeTable t).length = t.length := by
  unfold normalizeTable
  split
  · simp_all
  · simp

theorem normalizeTable_ne_nil {t : List (List String)} (ht : t ≠ []) :
    normalizeTable t ≠ [] := by
  intro h
  apply ht
  have := normalizeTable_length t
  rw [h] at this
  exact List.length_eq_zero.mp this.symm

theorem normalizeTable_head_length {t : List (List String)} (ht : t ≠ []) :
    ((normalizeTable t).head?.getD []).length = maxRowLen t := by
  have hne := normalizeTable_ne_nil ht
  cases h : normalizeTable t with
  | nil => exact absurd h hne
  | cons r rs =>
    have : r ∈ normalizeTable t := by rw [h]; exact List.mem_cons_self _ _
    simpa using normalizeTable_row_length ht this

/-- Claim C3 — for every raggedly-shaped input table that `parse` turns into
a `ParsedTable`, every output row has exactly the maximum input row width,
and when no header was detected the headers are the synthetic
`"Column 1", …, "Column N"` sequence with `N` that maximum width.  The
produced table is a member of `parse`'s output for any table list containing
the input. -/
theorem tableParse_normalization (tables : List (List (List String)))
    (t : List (List String)) (pt : ParsedTable)
    (hmem : t ∈ tables) (hp : parseOneTable t = some pt) :
    pt ∈ tableParse tables ∧
      (∀ r ∈ pt.rows, r.length = maxRowLen t) ∧
      (pt.has_header = false → pt.headers = syntheticHeaders (maxRowLen t)) := by
  refine ⟨List.mem_filterMap.mpr ⟨t, hmem, hp⟩, ?_⟩
  unfold parseOneTable at hp
  by_cases ht : t = []
  · rw [if_pos ht] at hp; cases hp
  rw [if_neg ht] at hp
  by_cases hn : normalizeTable t = []
  · rw [if_pos hn] at hp; cases hp
  rw [if_neg hn] at hp
  injection hp with hp
  subst hp
  rcases hdet : detectHeaders (normalizeTable t) with ⟨b, hdrs⟩
  constructor
  · intro r hr
    simp only [hdet] at hr
    cases b with
    | true =>
      simp only [if_pos] at hr
      exact normalizeTable_row_length ht (List.mem_of_mem_drop hr)
    | false =>
      simp at hr
      exact normalizeTable_row_length ht hr
  · intro hh
    simp only [hdet] at hh ⊢
    cases b with
    | true => simp at hh
    | false => simp [normalizeTable_head_length ht]

/-- Witness for C3 at a concrete table. -/
theorem tableParse_normalization_witness :
    (⟨["Column 1", "Column 2"], [["a", "b"]], 2, 1, false,
        some "general"⟩ : ParsedTable).headers =
      syntheticHeaders (maxRowLen [["a", "b"]]) :=
  (tableParse_normalization [[["a", "b"]]] [["a", "b"]] _
      (by simp) (by decide)).2.2 rfl

/-- Claim C9 — a raw table with fewer than two rows never gets a detected
header: the parsed table has `has_header = false`, synthetic headers, and
keeps every (normalized) input row as a data row. -/
theorem tableParse_short_no_header (t : List (List String)) (pt : ParsedTable)
    (hlen : t.length < 2) (hp : parseOneTable t = some pt) :
    pt.has_header = false ∧ pt.headers = syntheticHeaders (maxRowLen t) ∧
      pt.rows = normalizeTable t ∧ pt.rows.length = t.length := by
  unfold parseOneTable at hp
  by_cases ht : t = []
  · rw [if_pos ht] at hp; cases hp
  rw [if_neg ht] at hp
  by_cases hn : normalizeTable t = []
  · rw [if_pos hn] at hp; cases hp
  rw [if_neg hn] at hp
  have hdet : detectHeaders (normalizeTable t) = (false, []) := by
    unfold detectHeaders
    rw [if_pos]
    rw [normalizeTable_length]
    exact hlen
  rw [hdet] at hp
  injection hp with hp
  subst hp
  refine ⟨rfl, ?_, rfl, normalizeTable_length t⟩
  simp [normalizeTable_head_length ht]

/-- Witness for C9 at a concrete one-row table. -/
theorem tableParse_short_no_header_witness :
    (⟨["Column 1"], [["x"]], 1, 1, false, some "general"⟩ : ParsedTable).has_header
      = false :=
  (tableParse_short_no_header [["x"]] _ (by decide) (by decide)).1

end TableParser

namespace FormAnalyser

/-! ### Field values

The dynamic Python values stored in a `FieldMap` (the `TypedValue` union of
the spec): plain strings, ints, floats, booleans, the
`{'type': 'currency', ...}` / `{'type': 'date', ...}` dictionaries, and
string lists. -/

/-- A Python value as stored in a parsed `FieldMap`. -/
inductive PVal where
  | pstr (s : String)
  | pint (n : Int)
  | pfloat (q : ℚ)
  | pbool (b : Bool)
  | pcurrency (value : ℚ) (raw : String)
  | pdate (value : String)
  | plist (items : List String)
deriving DecidableEq, Repr

/-- Decimal rendering of an integer (Python `str(int)`). -/
def intStr (n : Int) : String :=
  if n < 0 then "-" ++ natStr n.natAbs else natStr n.natAbs

/-- Best-effort rendering of a Python `float` value.  Every float produced by
this pipeline is a finite decimal (it is parsed out of a decimal literal), and
for those `repr` prints the exact decimal expansion with at least one
fractional digit, which is what this produces; non-decimal rationals (which
the pipeline never produces) are rendered as plain fractions. -/
def floatStr (q : ℚ) : String :=
  let rec findExp : Nat → Option Nat
    | 0 => if q.den = 1 then some 0 else none
    | n + 1 => if (q.den : Int) ∣ (10 : Int) ^ (n + 1) ∧ ¬(q.den : Int) ∣ (10 : Int) ^ n
        then some (n + 1) else findExp n
  match findExp 40 with
  | some k =>
    let scaled : Int := q.num * (10 : Int) ^ k / (q.den : Int)
    let ds := natStr scaled.natAbs
    let ds := if ds.length ≤ k then ⟨List.replicate (k + 1 - ds.length) '0'⟩ ++ ds else ds
    let intPart := ds.data.take (ds.length - k)
    let fracPart := ds.data.drop (ds.length - k)
    (if scaled < 0 then "-" else "") ++ ⟨intPart⟩ ++ "." ++
      (if fracPart = [] then "0" else ⟨fracPart⟩)
  | none => intStr q.num ++ "/" ++ natStr q.den

/-- Python `repr` of a string as it appears inside `str(dict)`/`str(list)`
(quote-switching and control-character escaping are not modelled; no claim
depends on this rendering). -/
def pyReprStr (s : String) : String := "\x27" ++ s ++ "\x27"

/-- Python `str(value)` for the values a `FieldMap` can hold. -/
def pyStr : PVal → String
  | .pstr s => s
  | .pint n => intStr n
  | .pfloat q => floatStr q
  | .pbool b => if b then "True" else "False"
  | .pcurrency v raw =>
      "\x7b\x27type\x27: \x27currency\x27, \x27value\x27: " ++ floatStr v ++
        ", \x27raw\x27: " ++ pyReprStr raw ++ "\x7d"
  | .pdate v =>
      "\x7b\x27type\x27: \x27date\x27, \x27value\x27: " ++ pyReprStr v ++ "\x7d"
  | .plist items =>
      "[" ++ String.intercalate ", " (items.map pyReprStr) ++ "]"

/-- A `FieldMap`: insertion-ordered mapping from field name to value. -/
abbrev FieldMap := List (String × PVal)

/-- Python `dict` assignment `m[k] = v`: replaces in place, else appends. -/
def dictSet (m : FieldMap) (k : String) (v : PVal) : FieldMap :=
  if m.any (fun kv => kv.1 = k) then
    m.map (fun kv => if kv.1 = k then (k, v) else kv)
  else m ++ [(k, v)]

/-- Python `dict.update`: assign every entry of `other` in order. -/
def dictUpdate (m other : FieldMap) : FieldMap :=
  other.foldl (fun acc kv => dictSet acc kv.1 kv.2) m

/-- Python `dict.get` / `m[k]` lookup. -/
def dictGet (m : FieldMap) (k : String) : Option PVal :=
  (m.find? (fun kv => kv.1 = k)).map (·.2)

end FormAnalyser

namespace SchemaDetector

open FormAnalyser

/-! ### `src/processors/schema_detector.py` -/

/-- One catalog entry of `_build_schema_definitions`. -/
structure SchemaDef where
  name : String
  category : String
  indicators : List String
  required : Nat
deriving DecidableEq, Repr

/-- `SchemaMatch` (schema_detector.py, lines 12-18). -/
structure SchemaMatch where
  schema_type : String
  confidence : ℚ
  matched_indicators : List String
  category : String
deriving DecidableEq, Repr

/-- The schema catalog of `_build_schema_definitions`, in dict insertion
order. -/
def schemaCatalog : List SchemaDef :=
  [ ⟨"w2", "tax",
      ["wage and tax statement", "w-2", "form w-2",
       "employer identification number", "ein",
       "employee\x27s social security", "federal income tax withheld",
       "social security wages", "medicare wages"], 2⟩,
    ⟨"w4", "tax",
      ["employee\x27s withholding", "w-4", "form w-4",
       "withholding allowance", "personal allowances",
       "additional amount to withhold"], 2⟩,
    ⟨"1099", "tax",
      ["1099", "form 1099", "miscellaneous income",
       "nonemployee compensation", "payer\x27s federal",
       "rents", "royalties", "other income"], 2⟩,
    ⟨"1040", "tax",
      ["1040", "form 1040", "u.s. individual income tax",
       "adjusted gross income", "taxable income",
       "filing status", "standard deduction", "tax return"], 2⟩,
    ⟨"insurance_claim", "medical",
      ["insurance claim", "claim form", "cms-1500", "hcfa",
       "diagnosis code", "icd", "cpt", "procedure code",
       "date of service", "provider", "patient information",
       "policyholder", "group number", "member id"], 3⟩,
    ⟨"medical_intake", "medical",
      ["patient intake", "medical history", "health history",
       "allergies", "medications", "emergency contact",
       "primary care physician", "insurance information",
       "chief complaint", "symptoms", "family history"], 3⟩,
    ⟨"hipaa_authorization", "medical",
      ["hipaa", "authorization", "protected health information",
       "phi", "release of information", "health information",
       "disclose", "privacy"], 3⟩,
    ⟨"job_application", "employment",
      ["employment application", "job application", "applicant",
       "position applied", "work experience", "previous employer",
       "references", "education history", "equal opportunity",
       "availability", "desired salary"], 3⟩,
    ⟨"i9", "employment",
      ["i-9", "form i-9", "employment eligibility",
       "verification", "citizenship status", "work authorization",
       "list a", "list b", "list c", "uscis"], 3⟩,
    ⟨"onboarding", "employment",
      ["new hire", "onboarding", "employee information",
       "start date", "department", "manager", "direct deposit",
       "emergency contact", "benefits enrollment"], 3⟩,
    ⟨"loan_application", "financial",
      ["loan application", "credit application", "borrower",
       "loan amount", "interest rate", "collateral",
       "monthly payment", "debt-to-income", "credit score",
       "assets", "liabilities", "loan purpose"], 3⟩,
    ⟨"bank_account", "financial",
      ["account opening", "new account", "account application",
       "checking", "savings", "routing number", "account number",
       "joint account", "beneficiary", "initial deposit"], 3⟩,
    ⟨"contract", "legal",
      ["agreement", "contract", "parties", "terms and conditions",
       "whereas", "hereby", "binding", "effective date",
       "termination", "governing law", "jurisdiction",
       "indemnification", "liability"], 3⟩,
    ⟨"power_of_attorney", "legal",
      ["power of attorney", "attorney-in-fact", "principal",
       "agent", "authority", "durable", "revocation",
       "notarized", "witness"], 3⟩,
    ⟨"dmv", "government",
      ["dmv", "driver license", "vehicle registration",
       "title", "vin", "license plate", "odometer",
       "registration fee", "department of motor vehicles"], 3⟩,
    ⟨"passport", "government",
      ["passport", "citizenship", "place of birth",
       "passport number", "nationality", "travel document",
       "department of state", "ds-11", "ds-82"], 3⟩,
    ⟨"school_application", "education",
      ["admission", "application", "enrollment", "student",
       "gpa", "transcript", "academic", "school",
       "grade level", "program", "degree", "major"], 3⟩,
    ⟨"financial_aid", "education",
      ["fafsa", "financial aid", "student aid", "grant",
       "scholarship", "loan", "efc", "expected family contribution",
       "award letter", "disbursement"], 3⟩ ]

/-- The flattened `"key value"` rendering of the field map
(`' '.join(str(k) + ' ' + str(v) for k, v in fields.items())`). -/
def fieldText (fields : FieldMap) : String :=
  String.intercalate " " (fields.map (fun kv => kv.1 ++ " " ++ pyStr kv.2))

/-- The lower-cased search text: raw text plus (when a nonempty field map was
supplied) the flattened field rendering. -/
def searchText (text : String) (fields : FieldMap) : String :=
  let tl := pyLower text
  if fields = [] then tl else tl ++ " " ++ pyLower (fieldText fields)

/-- The indicators of a schema found in the search text, in catalog order. -/
def matchedIndicators (sd : SchemaDef) (st : String) : List String :=
  sd.indicators.filter (fun ind => containsSub ind st)

/-- The candidate score `len(matched) / len(indicators)` of a schema. -/
def candScore (c : SchemaDef × List String) : ℚ :=
  (c.2.length : ℚ) / (c.1.indicators.length : ℚ)

/-- The `SchemaMatch` built for a winning candidate (confidence
`min(1.0, score * 1.2)`). -/
def mkMatch (c : SchemaDef × List String) : SchemaMatch :=
  ⟨c.1.name, min 1 (candScore c * (1.2 : ℚ)), c.2, c.1.category⟩

/-- The loop body of `detect_with_confidence`: the accumulator is
`(best_match, best_score)`, updated when a candidate strictly improves the
best score. -/
def detectStep (st : String) (acc : Option SchemaMatch × ℚ) (sd : SchemaDef) :
    Option SchemaMatch × ℚ :=
  let m := matchedIndicators sd st
  if sd.required ≤ m.length then
    let score : ℚ := (m.length : ℚ) / (sd.indicators.length : ℚ)
    if acc.2 < score then (some (mkMatch (sd, m)), score) else acc
  else acc

/-- `SchemaDetector.detect_with_confidence`. -/
def detectWithConfidence (text : String) (fields : FieldMap) :
    Option SchemaMatch :=
  if text = "" then none
  else
    (schemaCatalog.foldl (detectStep (searchText text fields)) (none, 0)).1

/-- `SchemaDetector.detect` (the claim calls it `classify`): the best match's
type, subject to the `confidence >= 0.5` floor. -/
def detect (text : String) (fields : FieldMap) : Option String :=
  match detectWithConfidence text fields with
  | some m => if (0.5 : ℚ) ≤ m.confidence then some m.schema_type else none
  | none => none

/-- A schema viewed as a candidate: kept exactly when its matched-indicator
count reaches its required minimum. -/
def candOf (st : String) (sd : SchemaDef) : Option (SchemaDef × List String) :=
  if sd.required ≤ (matchedIndicators sd st).length
  then some (sd, matchedIndicators sd st) else none

/-- The candidate list in the claim's words: schemas whose matched-indicator
count reaches their required minimum, in catalog order, with their matched
indicators. -/
def candidates (st : String) : List (SchemaDef × List String) :=
  schemaCatalog.filterMap (candOf st)

/-- The classification result as the claim states it (with no guard on empty
text): the first candidate in catalog order attaining the maximal candidate
score, with confidence `min(1.0, 1.2 × score)`. -/
def detectSpecStated (text : String) (fields : FieldMap) : Option SchemaMatch :=
  let cs := candidates (searchText text fields)
  match cs.find? (fun c => cs.all (fun c2 => candScore c2 ≤ candScore c)) with
  | some c => some (mkMatch c)
  | none => none

/-- The `classify` result as the claim states it: the stated best match,
dropped when its confidence is below 0.5. -/
def detectSpecStatedFloor (text : String) (fields : FieldMap) : Option String :=
  match detectSpecStated text fields with
  | some m => if (0.5 : ℚ) ≤ m.confidence then some m.schema_type else none
  | none => none

end SchemaDetector

namespace SchemaDetector

open FormAnalyser

/-- The running maximum of candidate scores, seeded with `m` (the shape taken
by `best_score` during the loop of `detect_with_confidence`). -/
def maxFrom (m : ℚ) (cs : List (SchemaDef × List String)) : ℚ :=
  cs.foldl (fun a c => max a (candScore c)) m

theorem maxFrom_nil (m : ℚ) : maxFrom m [] = m := rfl

theorem maxFrom_cons (m : ℚ) (c : SchemaDef × List String)
    (cs : List (SchemaDef × List String)) :
    maxFrom m (c :: cs) = maxFrom (max m (candScore c)) cs := rfl

theorem le_maxFrom (m : ℚ) (cs : List (SchemaDef × List String)) :
    m ≤ maxFrom m cs := by
  induction cs generalizing m with
  | nil => exact le_refl m
  | cons c rest ih => exact le_trans (le_max_left _ _) (ih _)

theorem score_le_maxFrom {c : SchemaDef × List String}
    {cs : List (SchemaDef × List String)} (m : ℚ) (h : c ∈ cs) :
    candScore c ≤ maxFrom m cs := by
  induction cs generalizing m with
  | nil => cases h
  | cons c' rest ih =>
    rcases List.mem_cons.mp h with rfl | hmem
    · exact le_trans (le_max_right _ _) (le_maxFrom _ _)
    · exact ih _ hmem

theorem maxFrom_le {b m : ℚ} {cs : List (SchemaDef × List String)}
    (hm : m ≤ b) (h : ∀ c ∈ cs, candScore c ≤ b) : maxFrom m cs ≤ b := by
  induction cs generalizing m with
  | nil => exact hm
  | cons c rest ih =>
    rw [maxFrom_cons]
    exact ih (max_le hm (h c (List.mem_cons_self _ _)))
      (fun c2 h2 => h c2 (List.mem_cons_of_mem _ h2))

theorem find?_congr {α : Type} (l : List α) (p q : α → Bool)
    (h : ∀ x ∈ l, p x = q x) : l.find? p = l.find? q := by
  induction l with
  | nil => rfl
  | cons a rest ih =>
    have ha := h a (List.mem_cons_self _ _)
    by_cases hp : p a = true
    · rw [List.find?_cons_of_pos _ hp, List.find?_cons_of_pos _ (ha ▸ hp)]
    · rw [List.find?_cons_of_neg _ hp,
        List.find?_cons_of_neg _ (by rw [← ha]; exact hp),
        ih (fun x hx => h x (List.mem_cons_of_mem _ hx))]

/-- The candidate-level loop body (`detectStep` restricted to candidates). -/
def candStep (acc : Option SchemaMatch × ℚ) (c : SchemaDef × List String) :
    Option SchemaMatch × ℚ :=
  if acc.2 < candScore c then (some (mkMatch c), candScore c) else acc

/-- The catalog-order loop of the source equals the same loop over the
candidate list. -/
theorem foldl_detectStep_eq_candStep (st : String) (l : List SchemaDef) :
    ∀ acc, l.foldl (detectStep st) acc =
      (l.filterMap (candOf st)).foldl candStep acc := by
  induction l with
  | nil => intro acc; rfl
  | cons sd rest ih =>
    intro acc
    by_cases h : sd.required ≤ (matchedIndicators sd st).length
    · rw [List.foldl_cons,
        List.filterMap_cons_some (show candOf st sd = some _ by rw [candOf, if_pos h]),
        List.foldl_cons, ih]
      congr 1
      simp [detectStep, candStep, h, candScore, mkMatch]
    · rw [List.foldl_cons,
        List.filterMap_cons_none (show candOf st sd = none by rw [candOf, if_neg h]),
        ih]
      congr 1
      simp [detectStep, h]

/-- Characterization of the strictly-improving best-match fold: starting from
accumulator `acc`, it returns the first element attaining the maximal score
when some score strictly exceeds `acc.2`, and `acc` unchanged otherwise. -/
theorem foldl_candStep_spec (cs : List (SchemaDef × List String)) :
    ∀ acc : Option SchemaMatch × ℚ,
      (acc.2 < maxFrom acc.2 cs →
        ∃ cb, cs.find? (fun c => decide (candScore c = maxFrom acc.2 cs)) = some cb ∧
          cs.foldl candStep acc = (some (mkMatch cb), candScore cb)) ∧
      (maxFrom acc.2 cs ≤ acc.2 → cs.foldl candStep acc = acc) := by
  induction cs with
  | nil =>
    intro acc
    exact ⟨fun h => absurd h (by rw [maxFrom_nil]; exact lt_irrefl _),
      fun _ => rfl⟩
  | cons c rest ih =>
    intro acc
    by_cases hc : acc.2 < candScore c
    · have hacc' : candStep acc c = (some (mkMatch c), candScore c) := by
        simp [candStep, hc]
      have hmax : max acc.2 (candScore c) = candScore c :=
        max_eq_right (le_of_lt hc)
      have hM : maxFrom acc.2 (c :: rest) = maxFrom (candScore c) rest := by
        rw [maxFrom_cons, hmax]
      constructor
      · intro _
        by_cases hEq : candScore c = maxFrom acc.2 (c :: rest)
        · refine ⟨c, ?_, ?_⟩
          · exact List.find?_cons_of_pos _ (by simp [hEq])
          · have hle : maxFrom (candScore c) rest ≤ candScore c := by
              rw [← hM, ← hEq]
            have h2 := (ih ((some (mkMatch c), candScore c))).2 hle
            rw [List.foldl_cons, hacc', h2]
        · have hmem : candScore c ≤ maxFrom acc.2 (c :: rest) :=
            score_le_maxFrom _ (List.mem_cons_self _ _)
          have hlt : candScore c < maxFrom acc.2 (c :: rest) :=
            lt_of_le_of_ne hmem hEq
          have hM' : maxFrom (candScore c) rest = maxFrom acc.2 (c :: rest) := hM.symm
          obtain ⟨cb, hfind, hfold⟩ :=
            (ih ((some (mkMatch c), candScore c))).1 (by rw [hM']; exact hlt)
          refine ⟨cb, ?_, ?_⟩
          · rw [List.find?_cons_of_neg _ (by simp [hEq]), ← hfind]
            congr 1
            funext x
            rw [hM']
          · rw [List.foldl_cons, hacc', hfold]
      · intro h
        exact absurd (lt_of_lt_of_le hc
          (le_trans (score_le_maxFrom _ (List.mem_cons_self _ _)) h)) (lt_irrefl _)
    · have hacc : candStep acc c = acc := by simp [candStep, hc]
      have hmax : max acc.2 (candScore c) = acc.2 := max_eq_left (not_lt.mp hc)
      have hM : maxFrom acc.2 (c :: rest) = maxFrom acc.2 rest := by
        rw [maxFrom_cons, hmax]
      constructor
      · intro h
        rw [hM] at h
        obtain ⟨cb, hfind, hfold⟩ := (ih acc).1 h
        have hne : candScore c ≠ maxFrom acc.2 (c :: rest) := by
          rw [hM]
          exact ne_of_lt (lt_of_le_of_lt (not_lt.mp hc) h)
        refine ⟨cb, ?_, ?_⟩
        · rw [List.find?_cons_of_neg _ (by simp [hne]), ← hfind]
          congr 1
          funext x
          rw [hM]
        · rw [List.foldl_cons, hacc, hfold]
      · intro h
        rw [hM] at h
        rw [List.foldl_cons, hacc, (ih acc).2 h]

/-- Every catalog entry requires at least one indicator and has a nonempty
indicator list. -/
theorem schemaCatalog_sound :
    ∀ sd ∈ schemaCatalog, 1 ≤ sd.required ∧ sd.indicators ≠ [] := by decide

theorem candScore_pos {st : String} {c : SchemaDef × List String}
    (h : c ∈ candidates st) : 0 < candScore c := by
  obtain ⟨sd, hsd, hc⟩ := List.mem_filterMap.mp h
  by_cases hreq : sd.required ≤ (matchedIndicators sd st).length
  · rw [candOf, if_pos hreq] at hc
    injection hc with hc
    subst hc
    have h1 : 1 ≤ sd.required := (schemaCatalog_sound sd hsd).1
    have hm : 1 ≤ (matchedIndicators sd st).length := le_trans h1 hreq
    have ht : 1 ≤ sd.indicators.length := by
      have : (matchedIndicators sd st).length ≤ sd.indicators.length :=
        List.length_filter_le _ _
      omega
    have hm' : (0 : ℚ) < ((matchedIndicators sd st).length : ℚ) := by
      exact_mod_cast hm
    have ht' : (0 : ℚ) < (sd.indicators.length : ℚ) := by exact_mod_cast ht
    exact div_pos hm' ht'
  · rw [candOf, if_neg hreq] at hc
    cases hc

/-- Claim C2 (amended) — with nonempty text, `detect_with_confidence` returns
exactly the claim's stated result (the first candidate in catalog order
attaining the maximal score `matched/total`, with confidence
`min(1.0, 1.2 × score)`), and `detect` additionally applies the 0.5
confidence floor; with empty text both report nothing regardless of the
field map. -/
theorem detect_follows_stated_spec (text : String) (fields : FieldMap) :
    (text = "" → detectWithConfidence text fields = none ∧
      detect text fields = none) ∧
    (text ≠ "" →
      detectWithConfidence text fields = detectSpecStated text fields ∧
      detect text fields = detectSpecStatedFloor text fields) := by
  constructor
  · intro h
    have h1 : detectWithConfidence text fields = none := by
      rw [detectWithConfidence, if_pos h]
    exact ⟨h1, by rw [detect, h1]⟩
  · intro h
    have hmain : detectWithConfidence text fields = detectSpecStated text fields := by
      have hdwc : detectWithConfidence text fields =
          ((candidates (searchText text fields)).foldl candStep (none, 0)).1 := by
        rw [detectWithConfidence, if_neg h, foldl_detectStep_eq_candStep]
        rfl
      by_cases hnil : candidates (searchText text fields) = []
      · rw [hdwc, hnil]
        simp [detectSpecStated, hnil]
      · have hpos : ∀ c ∈ candidates (searchText text fields), 0 < candScore c :=
          fun c hc => candScore_pos hc
        obtain ⟨c0, cs0, hcons⟩ := List.exists_cons_of_ne_nil hnil
        have hc0mem : c0 ∈ candidates (searchText text fields) := by
          rw [hcons]; exact List.mem_cons_self _ _
        have hM : (0 : ℚ) < maxFrom 0 (candidates (searchText text fields)) :=
          lt_of_lt_of_le (hpos c0 hc0mem) (score_le_maxFrom 0 hc0mem)
        obtain ⟨cb, hfind, hfold⟩ :=
          (foldl_candStep_spec (candidates (searchText text fields)) (none, 0)).1 hM
        have hcongr : (candidates (searchText text fields)).find?
              (fun c => (candidates (searchText text fields)).all
                (fun c2 => candScore c2 ≤ candScore c)) =
            (candidates (searchText text fields)).find?
              (fun c => decide (candScore c =
                maxFrom 0 (candidates (searchText text fields)))) := by
          apply find?_congr
          intro x hx
          apply Bool.eq_iff_iff.mpr
          constructor
          · intro hall
            have hub : ∀ c2 ∈ candidates (searchText text fields),
                candScore c2 ≤ candScore x := by
              intro c2 h2
              have := List.all_eq_true.mp hall c2 h2
              exact of_decide_eq_true this
            have h1 : maxFrom 0 (candidates (searchText text fields)) ≤ candScore x :=
              maxFrom_le (le_of_lt (hpos x hx)) hub
            have h2 : candScore x ≤ maxFrom 0 (candidates (searchText text fields)) :=
              score_le_maxFrom 0 hx
            exact decide_eq_true (le_antisymm h2 h1)
          · intro hdec
            have hxM := of_decide_eq_true hdec
            apply List.all_eq_true.mpr
            intro c2 h2
            exact decide_eq_true (hxM ▸ score_le_maxFrom 0 h2)
        rw [hdwc, hfold]
        simp only [detectSpecStated, hcongr, hfind]
    refine ⟨hmain, ?_⟩
    rw [detect, hmain, detectSpecStatedFloor]

/-- A field map whose rendering contains five `w2` indicators; used to
exercise `detect` on empty raw text. -/
def c2Fields : FieldMap :=
  [("note", .pstr "wage and tax statement form w-2 employer identification number federal income tax withheld")]

/-- Counterexample to claim C2 as stated: with empty raw text but an
indicator-rich field map, the stated rule produces the candidate `w2` with
confidence `min(1, 1.2 × 5/9) = 2/3 ≥ 0.5`, yet `detect` reports nothing —
the source guards on empty text before ever looking at the fields. -/
theorem detect_c2_counterexample :
    detect "" c2Fields = none ∧
      detectSpecStatedFloor "" c2Fields = some "w2" := by
  constructor
  · rfl
  · have hc : candidates (searchText "" c2Fields) =
        [(⟨"w2", "tax",
          ["wage and tax statement", "w-2", "form w-2",
           "employer identification number", "ein",
           "employee\x27s social security", "federal income tax withheld",
           "social security wages", "medicare wages"], 2⟩,
          ["wage and tax statement", "w-2", "form w-2",
           "employer identification number", "federal income tax withheld"])] := by
      decide
    simp only [detectSpecStatedFloor, detectSpecStated, hc]
    rw [List.find?_cons_of_pos _ (by simp)]
    simp only [mkMatch, candScore]
    norm_num

/-- Witness for the amended claim C2 at a concrete nonempty text. -/
theorem detect_follows_stated_spec_witness :
    detectWithConfidence "x" [] = detectSpecStated "x" [] :=
  ((detect_follows_stated_spec "x" []).2 (by decide)).1

/-- `SchemaDetector.get_expected_fields`: the expected-field catalog, which
covers only four schema types. -/
def getExpectedFields (schemaType : String) : List String :=
  if schemaType = "w2" then
    ["Employee SSN", "Employer EIN", "Employee Name",
     "Employer Name", "Wages", "Federal Tax Withheld",
     "Social Security Wages", "Medicare Wages"]
  else if schemaType = "insurance_claim" then
    ["Patient Name", "Date of Birth", "Insurance ID",
     "Group Number", "Provider Name", "Date of Service",
     "Diagnosis Code", "Procedure Code", "Amount Charged"]
  else if schemaType = "job_application" then
    ["Applicant Name", "Address", "Phone", "Email",
     "Position Applied For", "Desired Salary",
     "Work Experience", "Education", "References"]
  else if schemaType = "loan_application" then
    ["Borrower Name", "SSN", "Address", "Employment",
     "Annual Income", "Loan Amount", "Loan Purpose",
     "Assets", "Liabilities"]
  else []

/-- `SchemaDetector.validate_fields`: completeness ratio and missing expected
fields (a field counts as present on case-insensitive substring match in
either direction). -/
def validateFields (schemaType : String) (fields : FieldMap) :
    ℚ × List String :=
  let expected := getExpectedFields schemaType
  if expected = [] then (1, [])
  else
    let fieldNamesLower := fields.map (fun kv => pyLower kv.1)
    let res := expected.foldl (fun (acc : Nat × List String) ef =>
      if fieldNamesLower.any (fun f =>
          containsSub (pyLower ef) f || containsSub f (pyLower ef)) then
        (acc.1 + 1, acc.2)
      else (acc.1, acc.2 ++ [ef])) (0, [])
    ((res.1 : ℚ) / (expected.length : ℚ), res.2)

/-- Claim C10 — for every schema type outside the four with an expected-field
catalog (including unknown identifiers), `validate_fields` reports full
completeness `1.0` and no missing fields, for every field map. -/
theorem validateFields_unknown_schema (schemaType : String) (fields : FieldMap)
    (h : schemaType ∉ ["w2", "insurance_claim", "job_application",
      "loan_application"]) :
    validateFields schemaType fields = (1, []) := by
  have h1 : schemaType ≠ "w2" := by intro hh; exact h (by simp [hh])
  have h2 : schemaType ≠ "insurance_claim" := by intro hh; exact h (by simp [hh])
  have h3 : schemaType ≠ "job_application" := by intro hh; exact h (by simp [hh])
  have h4 : schemaType ≠ "loan_application" := by intro hh; exact h (by simp [hh])
  have he : getExpectedFields schemaType = [] := by
    rw [getExpectedFields, if_neg h1, if_neg h2, if_neg h3, if_neg h4]
  rw [validateFields, he]
  rfl

/-- Witness for C10 at a concrete schema type with no expected-field
catalog. -/
theorem validateFields_unknown_schema_witness :
    validateFields "contract" [("Agreement", .pstr "x")] = (1, []) :=
  validateFields_unknown_schema "contract" [("Agreement", .pstr "x")] (by decide)

end SchemaDetector

namespace Retriever

open FormAnalyser

/-! ### `src/qa/retriever.py` (text strategy) -/

/-- `RetrievalResult` (retriever.py, lines 12-18). -/
structure RetrievalResult where
  text : String
  score : ℚ
  source : String
  chunk_type : String
deriving DecidableEq, Repr

/-- Index of the last occurrence of a character. -/
def lastIdxOf (c : Char) (l : List Char) : Option Nat :=
  match l.reverse.findIdx? (fun d => d = c) with
  | some k => some (l.length - 1 - k)
  | none => none

/-- Fueled worker for `paraSplit` (the fuel is structural, so the function
reduces in the kernel; `paraSplit` supplies enough fuel for the whole
input). -/
def paraSplitF : Nat → List Char → List (List Char)
  | 0, _ => [[]]
  | _ + 1, [] => [[]]
  | fuel + 1, c :: cs =>
    if c = '\n' then
      match lastIdxOf '\n' (cs.takeWhile isPySpace) with
      | some j => [] :: paraSplitF fuel (cs.drop (j + 1))
      | none =>
        match paraSplitF fuel cs with
        | [] => [[c]]
        | w :: ps => (c :: w) :: ps
    else
      match paraSplitF fuel cs with
      | [] => [[c]]
      | w :: ps => (c :: w) :: ps

/-- `re.split(r'\n\s*\n', text)`: a separator is a newline followed by a
whitespace run that contains another newline; the greedy `\s*` with
backtracking makes the separator extend to the last newline of the run. -/
def paraSplit (l : List Char) : List (List Char) := paraSplitF l.length l

/-- Fueled worker for `sentSplit`: split at whitespace runs preceded by a
sentence-ending punctuation character; `prev` is the previously consumed
character (the regex lookbehind `(?<=[.!?])`). -/
def sentSplitF : Nat → Char → List Char → List (List Char)
  | 0, _, _ => [[]]
  | _ + 1, _, [] => [[]]
  | fuel + 1, prev, c :: cs =>
    if (prev = '.' ∨ prev = '!' ∨ prev = '?') ∧ isPySpace c then
      [] :: sentSplitF fuel ' ' (cs.dropWhile isPySpace)
    else
      match sentSplitF fuel c cs with
      | [] => [[c]]
      | w :: ps => (c :: w) :: ps

/-- `re.split(r'(?<=[.!?])\s+', para)`. -/
def sentSplit (l : List Char) : List (List Char) := sentSplitF l.length ' ' l

/-- The sentence-packing loop of `_split_into_chunks`: greedily pack
sentences into chunks of at most 300 characters (the length test does not
count the joining space, exactly as the source's does). -/
def packSentences (sents : List (List Char)) : List (List Char) :=
  let r := sents.foldl (fun (acc : List (List Char) × List Char) s =>
    if acc.2.length + s.length ≤ 300 then
      (acc.1, if acc.2 = [] then s else acc.2 ++ [' '] ++ s)
    else
      (if acc.2 = [] then acc.1 else acc.1 ++ [acc.2], s)) ([], [])
  if r.2 = [] then r.1 else r.1 ++ [r.2]

/-- `ContextRetriever._split_into_chunks` (with the default chunk size 300,
the only one the source ever uses). -/
def splitIntoChunks (text : List Char) : List (List Char) :=
  (paraSplit text).foldl (fun chunks para =>
    let p := pyStripL para
    if p = [] then chunks
    else if p.length ≤ 300 then chunks ++ [p]
    else chunks ++ packSentences (sentSplit p)) []

/-- The unweighted overlap ratio `overlap / max(1, len(query_terms))` of a
chunk against a query. -/
def chunkRatio (query : String) (chunk : List Char) : ℚ :=
  (overlapCount (termSet (pyLower query)) (termSet (pyLower ⟨chunk⟩)) : ℚ) /
    (max 1 (termSet (pyLower query)).length : ℚ)

/-- `ContextRetriever._retrieve_from_text`. -/
def retrieveFromText (query : String) (text : String) : List RetrievalResult :=
  if text = "" then []
  else
    (splitIntoChunks text.data).foldl (fun results chunk =>
      if chunkRatio query chunk > (0.2 : ℚ) then
        results ++ [⟨⟨chunk⟩, min 1 (chunkRatio query chunk * (0.8 : ℚ)),
          "document text", "text"⟩]
      else results) []

theorem foldl_append_ite {α β : Type} (P : α → Prop) [DecidablePred P]
    (f : α → β) (l : List α) :
    ∀ init, l.foldl (fun rs c => if P c then rs ++ [f c] else rs) init =
      init ++ l.filterMap (fun c => if P c then some (f c) else none) := by
  induction l with
  | nil => intro init; simp
  | cons c rest ih =>
    intro init
    by_cases h : P c
    · rw [List.foldl_cons, if_pos h, ih,
        List.filterMap_cons_some (show _ = some (f c) by rw [if_pos h])]
      simp
    · rw [List.foldl_cons, if_neg h, ih,
        List.filterMap_cons_none (show _ = none by rw [if_neg h])]

theorem overlapCount_le_left (a b : List (List Char)) :
    overlapCount a b ≤ a.length :=
  List.length_filter_le _ _

theorem chunkRatio_le_one (query : String) (chunk : List Char) :
    chunkRatio query chunk ≤ 1 := by
  rw [chunkRatio]
  apply div_le_one_of_le₀
  · have h1 : overlapCount (termSet (pyLower query)) (termSet (pyLower ⟨chunk⟩))
        ≤ (termSet (pyLower query)).length := overlapCount_le_left _ _
    have h2 : (termSet (pyLower query)).length ≤ max 1 (termSet (pyLower query)).length :=
      le_max_right _ _
    exact_mod_cast le_trans h1 h2
  · positivity

theorem chunkRatio_nonneg (query : String) (chunk : List Char) :
    0 ≤ chunkRatio query chunk := by
  rw [chunkRatio]
  positivity

/-- The capped stored score collapses to the plain `0.8` weighting. -/
theorem min_one_score (query : String) (chunk : List Char) :
    min 1 (chunkRatio query chunk * (0.8 : ℚ)) =
      (0.8 : ℚ) * chunkRatio query chunk := by
  rw [mul_comm]
  apply min_eq_right
  have h := chunkRatio_le_one query chunk
  nlinarith [chunkRatio_nonneg query chunk]

/-- Claim C6 (amended) — the text strategy retains exactly the chunks whose
unweighted overlap ratio exceeds 0.2, and stores for each retained chunk the
score `0.8 × ratio` (the 0.2 threshold is applied before the 0.8 weighting,
not after). -/
theorem retrieveFromText_pool (query text : String) :
    (∀ r ∈ retrieveFromText query text,
        r.source = "document text" ∧ r.chunk_type = "text" ∧
        ∃ chunk ∈ splitIntoChunks text.data, r.text = (⟨chunk⟩ : String) ∧
          (0.2 : ℚ) < chunkRatio query chunk ∧
          r.score = (0.8 : ℚ) * chunkRatio query chunk) ∧
    (∀ chunk ∈ splitIntoChunks text.data,
        (0.2 : ℚ) < chunkRatio query chunk →
          ∃ r ∈ retrieveFromText query text, r.text = (⟨chunk⟩ : String) ∧
            r.score = (0.8 : ℚ) * chunkRatio query chunk) := by
  have hmain : retrieveFromText query text =
      (if text = "" then [] else splitIntoChunks text.data).filterMap
        (fun chunk => if chunkRatio query chunk > (0.2 : ℚ) then
          some (⟨⟨chunk⟩, min 1 (chunkRatio query chunk * (0.8 : ℚ)),
            "document text", "text"⟩ : RetrievalResult) else none) := by
    by_cases ht : text = ""
    · rw [retrieveFromText, if_pos ht, if_pos ht]
      rfl
    · rw [retrieveFromText, if_neg ht, if_neg ht,
        foldl_append_ite (fun chunk => chunkRatio query chunk > (0.2 : ℚ))]
      rfl
  have hchunks_empty : text = "" → splitIntoChunks text.data = [] := by
    intro ht
    subst ht
    decide
  constructor
  · intro r hr
    rw [hmain] at hr
    obtain ⟨chunk, hcm, hsome⟩ := List.mem_filterMap.mp hr
    by_cases hgt : chunkRatio query chunk > (0.2 : ℚ)
    · rw [if_pos hgt] at hsome
      injection hsome with hsome
      subst hsome
      refine ⟨rfl, rfl, chunk, ?_, rfl, hgt, min_one_score query chunk⟩
      by_cases ht : text = ""
      · rw [if_pos ht] at hcm
        cases hcm
      · rw [if_neg ht] at hcm
        exact hcm
    · rw [if_neg hgt] at hsome
      cases hsome
  · intro chunk hcm hgt
    refine ⟨⟨⟨chunk⟩, min 1 (chunkRatio query chunk * (0.8 : ℚ)),
      "document text", "text"⟩, ?_, rfl, min_one_score query chunk⟩
    rw [hmain]
    apply List.mem_filterMap.mpr
    refine ⟨chunk, ?_, by rw [if_pos hgt]⟩
    by_cases ht : text = ""
    · rw [hchunks_empty ht] at hcm
      cases hcm
    · rw [if_neg ht]
      exact hcm

/-- Counterexample to claim C6 as stated: for a four-term query and a chunk
matching exactly one term, the weighted score is `0.8 × 1/4 = 0.2`, which
does not exceed 0.2 — yet the chunk is retained, because the source compares
the unweighted ratio `1/4` against the threshold. -/
theorem retrieveFromText_c6_counterexample :
    splitIntoChunks ("alpha xyzq wwww qqqq").data =
      [("alpha xyzq wwww qqqq").data] ∧
    (retrieveFromText "alpha beta gamma delta" "alpha xyzq wwww qqqq").length
      = 1 ∧
    ¬ ((0.8 : ℚ) * chunkRatio "alpha beta gamma delta"
        ("alpha xyzq wwww qqqq").data > (0.2 : ℚ)) := by
  have hov : overlapCount (termSet (pyLower "alpha beta gamma delta"))
      (termSet (pyLower ⟨("alpha xyzq wwww qqqq").data⟩)) = 1 := by decide
  have hlen : (termSet (pyLower "alpha beta gamma delta")).length = 4 := by decide
  have hr : chunkRatio "alpha beta gamma delta" ("alpha xyzq wwww qqqq").data
      = 1/4 := by
    rw [chunkRatio, hov, hlen]
    norm_num
  refine ⟨by decide, ?_, ?_⟩
  · rw [retrieveFromText, if_neg (by decide),
      show splitIntoChunks ("alpha xyzq wwww qqqq").data =
        [("alpha xyzq wwww qqqq").data] from by decide,
      List.foldl_cons, if_pos (by rw [hr]; norm_num), List.foldl_nil]
    simp
  · rw [hr]
    norm_num

/-- Witness for the amended claim C6 at a concrete query and text. -/
theorem retrieveFromText_pool_witness :
    ∃ r ∈ retrieveFromText "alpha beta" "alpha beta",
      r.text = ("alpha beta" : String) ∧
        r.score = (0.8 : ℚ) * chunkRatio "alpha beta" ("alpha beta").data := by
  have hov : overlapCount (termSet (pyLower "alpha beta"))
      (termSet (pyLower ⟨("alpha beta").data⟩)) = 2 := by decide
  have hlen : (termSet (pyLower "alpha beta")).length = 2 := by decide
  have h := (retrieveFromText_pool "alpha beta" "alpha beta").2
    ("alpha beta").data (by decide)
    (by rw [chunkRatio, hov, hlen]; norm_num)
  obtain ⟨r, hrmem, hrtext, hrscore⟩ := h
  exact ⟨r, hrmem, hrtext, hrscore⟩

namespace FormAnalyser

/-! ### Date pattern matchers

The four date regexes of `field_parser.py` (the first three are also used by
`qa_engine._answer_when_question`).  Each matcher is anchored at the start of
its input and returns `(matched text, rest)` on success; the scanners below
provide `search`/`finditer` behaviour.  The greedy bounded quantifiers
(`\d{1,2}` etc.) are deterministic for these patterns because the characters
that may follow a digit run are never digits. -/

/-- Split a leading digit run off a string. -/
def takeDigits (l : List Char) : List Char × List Char :=
  (l.takeWhile isDigitChar, l.dropWhile isDigitChar)

def isDateSep (c : Char) : Bool := c = '/' || c = '-'

/-- `\d{1,2} sep \d{1,2} sep \d{2,4}` with `sep` a slash or dash
(MM/DD/YYYY-like). -/
def dateM1 (l : List Char) : Option (List Char × List Char) :=
  let p1 := takeDigits l
  if p1.1.length = 0 ∨ 2 < p1.1.length then none
  else match p1.2 with
    | s1 :: r2 =>
      if isDateSep s1 then
        let p2 := takeDigits r2
        if p2.1.length = 0 ∨ 2 < p2.1.length then none
        else match p2.2 with
          | s2 :: r4 =>
            if isDateSep s2 then
              let p3 := takeDigits r4
              if p3.1.length < 2 then none
              else some (p1.1 ++ [s1] ++ p2.1 ++ [s2] ++ p3.1.take 4,
                p3.1.drop 4 ++ p3.2)
            else none
          | [] => none
      else none
    | [] => none

/-- `\d{4} sep \d{1,2} sep \d{1,2}` with `sep` a slash or dash
(YYYY-MM-DD-like). -/
def dateM2 (l : List Char) : Option (List Char × List Char) :=
  let p1 := takeDigits l
  if p1.1.length ≠ 4 then none
  else match p1.2 with
    | s1 :: r2 =>
      if isDateSep s1 then
        let p2 := takeDigits r2
        if p2.1.length = 0 ∨ 2 < p2.1.length then none
        else match p2.2 with
          | s2 :: r4 =>
            if isDateSep s2 then
              let p3 := takeDigits r4
              if p3.1.length = 0 then none
              else some (p1.1 ++ [s1] ++ p2.1 ++ [s2] ++ p3.1.take 2,
                p3.1.drop 2 ++ p3.2)
            else none
          | [] => none
      else none
    | [] => none

def monthPrefixes : List (List Char) :=
  ["jan", "feb", "mar", "apr", "may", "jun", "jul", "aug", "sep", "oct",
   "nov", "dec"].map String.data

/-- Case-insensitive month alternation `(?:Jan|Feb|…|Dec)`: consumes three
characters whose lower-casing is a month prefix. -/
def monthAlt (l : List Char) : Option (List Char × List Char) :=
  match l with
  | a :: b :: c :: rest =>
    if monthPrefixes.contains ([a, b, c].map Char.toLower)
    then some ([a, b, c], rest) else none
  | _ => none

/-- The whitespace-run step `\s+`. -/
def wsPlus (l : List Char) : Option (List Char × List Char) :=
  let run := l.takeWhile isPySpace
  if run = [] then none else some (run, l.dropWhile isPySpace)

/-- `(?:Jan|…|Dec)[a-z]*\s+\d{1,2},?\s+\d{4}` with `IGNORECASE`
("Month DD, YYYY"). -/
def dateM3 (l : List Char) : Option (List Char × List Char) :=
  match monthAlt l with
  | none => none
  | some (mon, r1) =>
    let letters := r1.takeWhile (fun c => isAsciiAlpha c)
    let r2 := r1.dropWhile (fun c => isAsciiAlpha c)
    match wsPlus r2 with
    | none => none
    | some (ws1, r3) =>
      let pd := takeDigits r3
      if pd.1.length = 0 ∨ 2 < pd.1.length then none
      else
        let tail4 : List Char → Option (List Char × List Char) := fun r =>
          match wsPlus r with
          | none => none
          | some (ws2, r5) =>
            let py := takeDigits r5
            if py.1.length < 4 then none
            else some (ws2 ++ py.1.take 4, py.1.drop 4 ++ py.2)
        let afterDay :=
          match pd.2 with
          | ',' :: r4 =>
            match tail4 r4 with
            | some (t, rest) => some ((',' : Char) :: t, rest)
            | none => tail4 pd.2
          | _ => tail4 pd.2
        match afterDay with
        | none => none
        | some (t, rest) => some (mon ++ letters ++ ws1 ++ pd.1 ++ t, rest)

/-- `\d{1,2}\s+(?:Jan|…|Dec)[a-z]*\s+\d{4}` with `IGNORECASE`
("DD Month YYYY"). -/
def dateM4 (l : List Char) : Option (List Char × List Char) :=
  let pd := takeDigits l
  if pd.1.length = 0 ∨ 2 < pd.1.length then none
  else match wsPlus pd.2 with
    | none => none
    | some (ws1, r2) =>
      match monthAlt r2 with
      | none => none
      | some (mon, r3) =>
        let letters := r3.takeWhile (fun c => isAsciiAlpha c)
        let r4 := r3.dropWhile (fun c => isAsciiAlpha c)
        match wsPlus r4 with
        | none => none
        | some (ws2, r5) =>
          let py := takeDigits r5
          if py.1.length < 4 then none
          else some (pd.1 ++ ws1 ++ mon ++ letters ++ ws2 ++ py.1.take 4,
            py.1.drop 4 ++ py.2)

/-- Fueled `re.search` scan for an anchored matcher: the leftmost match. -/
def searchF (m : List Char → Option (List Char × List Char)) :
    Nat → List Char → Option (List Char)
  | 0, _ => none
  | _ + 1, [] =>
    match m [] with
    | some (tok, _) => some tok
    | none => none
  | fuel + 1, c :: cs =>
    match m (c :: cs) with
    | some (tok, _) => some tok
    | none => searchF m fuel cs

/-- `re.search`: leftmost match of an anchored matcher. -/
def reSearch (m : List Char → Option (List Char × List Char))
    (l : List Char) : Option (List Char) :=
  searchF m l.length l

/-- Fueled `re.finditer` scan: `(start position, matched text)` for every
non-overlapping match, resuming after each match (a successful match always
consumes at least one character for the matchers used here). -/
def finditerF (m : List Char → Option (List Char × List Char)) :
    Nat → Nat → List Char → List (Nat × List Char)
  | 0, _, _ => []
  | _ + 1, _, [] => []
  | fuel + 1, pos, c :: cs =>
    match m (c :: cs) with
    | some (tok, rest) =>
      if tok = [] then finditerF m fuel (pos + 1) cs
      else (pos, tok) :: finditerF m fuel (pos + tok.length) rest
    | none => finditerF m fuel (pos + 1) cs

/-- `re.finditer` over a text. -/
def reFinditer (m : List Char → Option (List Char × List Char))
    (l : List Char) : List (Nat × List Char) :=
  finditerF m l.length 0 l

/-- `re.findall` (full matched texts). -/
def reFindall (m : List Char → Option (List Char × List Char))
    (l : List Char) : List (List Char) :=
  (reFinditer m l).map (·.2)

end FormAnalyser

namespace QAEngine

open FormAnalyser

/-! ### `src/qa/qa_engine.py`

The `QAEngine` configuration keeps its defaults (`top_k_retrieval = 5`); the
optional sentence-transformer embedder is the spec's external collaborator
and is modelled as an optional abstract similarity function `emb` (`none`
when the import fails).  `np.argsort` breaks similarity ties in an
unspecified order; the model uses a stable sort, which is one of its
admissible behaviours and is never reached by the claims settled here. -/

/-- `FormDocument` (agent.py): the read-only document the QA layer consumes. -/
structure FormDocument where
  file_path : String
  raw_text : String
  fields : FieldMap
  tables : List (List (List String))
  schema_type : Option String
deriving DecidableEq, Repr

/-- `QueryResult` (qa_engine.py, lines 12-19). -/
structure QueryResult where
  question : String
  answer : String
  confidence : ℚ
  source_fields : List String
  context : String
deriving DecidableEq, Repr

/-- Python slicing `s[:n]`. -/
def pyTake (n : Nat) (s : String) : String := ⟨s.data.take n⟩

/-- Terms of the regex `\b\w+\b` (any length), deduplicated (`set`). -/
def relevanceTerms (s : String) : List (List Char) := (wordRuns s.data).dedup

/-- The stop-word list of `_calculate_relevance`. -/
def stopWords : List String :=
  ["the", "a", "an", "is", "are", "was", "were", "what", "who",
   "where", "when", "how", "which", "this", "that", "of", "in",
   "on", "for", "to", "from", "with", "by"]

/-- `QAEngine._calculate_relevance` (arguments are already lower-cased by the
caller, as in the source). -/
def calculateRelevance (question field value : String) : ℚ :=
  let qTerms := (relevanceTerms question).filter
    (fun t => !(stopWords.map String.data).contains t)
  let fieldOverlap : ℚ :=
    (overlapCount qTerms (relevanceTerms field) : ℚ) / (max 1 qTerms.length : ℚ)
  let valueOverlap : ℚ :=
    (overlapCount qTerms (relevanceTerms value) : ℚ) / (max 1 qTerms.length : ℚ)
  max fieldOverlap (valueOverlap * (0.5 : ℚ))

def isPunctNL (c : Char) : Bool := c = '.' || c = '!' || c = '?' || c = '\n'

/-- `re.split(r'[.!?\n]+', text)`. -/
def splitPunct : List Char → List (List Char)
  | [] => [[]]
  | c :: cs =>
    if isPunctNL c then
      match cs with
      | [] => [[], []]
      | d :: _ =>
        if isPunctNL d then splitPunct cs
        else [] :: splitPunct cs
    else
      match splitPunct cs with
      | [] => [[c]]
      | w :: ps => (c :: w) :: ps

/-- `QAEngine._extract_relevant_snippets`. -/
def extractRelevantSnippets (question text : String) : List String :=
  if text = "" then []
  else
    let qTerms := termSet (pyLower question)
    ((((splitPunct text.data).map pyStripL).filter (fun s =>
        (10 ≤ s.length ∧ s.length ≤ 500) ∧
          2 ≤ overlapCount qTerms (termSet (pyLower ⟨s⟩)))).map
      (fun s => (⟨s⟩ : String))).take 3

/-- Python `str.split('\n\n')` (literal two-newline separator). -/
def splitDoubleNL : List Char → List (List Char)
  | [] => [[]]
  | '\n' :: '\n' :: rest => [] :: splitDoubleNL rest
  | c :: cs =>
    match splitDoubleNL cs with
    | [] => [[c]]
    | w :: ps => (c :: w) :: ps

/-- `QAEngine._semantic_search`: `emb` is the optional external embedding
provider, given as a similarity between the question and a chunk (`none`
models an unavailable provider, whose import failure makes the source return
`[]`). -/
def semanticSearch (emb : Option (String → String → ℚ)) (topK : Nat)
    (question : String) (doc : FormDocument) : List String :=
  match emb with
  | none => []
  | some sim =>
    let chunks := doc.fields.map (fun kv => kv.1 ++ ": " ++ pyStr kv.2) ++
      (((splitDoubleNL doc.raw_text.data).map pyStripL).filter
        (fun p => p ≠ [])).map (fun p => (⟨p⟩ : String))
    if chunks = [] then []
    else
      (((chunks.mergeSort (fun a b => sim question b ≤ sim question a)).take
        topK).filter (fun c => (0.3 : ℚ) < sim question c))

/-- `QAEngine._retrieve_context`: relevant fields, then (when fewer than
three parts and embeddings are enabled) semantic additions, then raw-text
snippets; the context is the first `top_k` parts joined by newlines. -/
def retrieveContext (useEmb : Bool) (emb : Option (String → String → ℚ))
    (topK : Nat) (question : String) (doc : FormDocument) :
    String × List String :=
  let ql := pyLower question
  let selected := doc.fields.filter (fun kv =>
    calculateRelevance ql (pyLower kv.1) (pyLower (pyStr kv.2)) > (0.3 : ℚ))
  let sourceFields := selected.map (·.1)
  let contextParts := selected.map (fun kv => kv.1 ++ ": " ++ pyStr kv.2)
  let contextParts :=
    if useEmb ∧ contextParts.length < 3 then
      contextParts ++ semanticSearch emb topK question doc
    else contextParts
  let contextParts := contextParts ++ extractRelevantSnippets question doc.raw_text
  (String.intercalate "\n" ((contextParts.take topK).map id), sourceFields)

/-- The subject tail `(.+?)(?:\?|$)` of the what-question patterns: the lazy
group runs to the first question mark, or to the end of the string (a
non-final embedded newline defeats the match since `.` cannot cross it and
`$` only matches at the end or before a final newline). -/
def subjectTail (l : List Char) : Option (List Char) :=
  let run := l.takeWhile (fun c => c ≠ '?' ∧ c ≠ '\n')
  let rest := l.dropWhile (fun c => c ≠ '?' ∧ c ≠ '\n')
  if run = [] then none
  else match rest with
    | [] => some run
    | '?' :: _ => some (run.takeWhile (fun c => c ≠ '?'))
    | ['\n'] => some run
    | _ => none

/-- One attempt of `what is (?:the )?(.+?)(?:\?|$)` at the current position
(the optional `the ` is tried first, as the greedy `(?:the )?` does). -/
def subjectAt (key : List Char) (l : List Char) : Option (List Char) :=
  if key.isPrefixOf l then
    let rest := l.drop key.length
    if ("the ".data).isPrefixOf rest then
      match subjectTail (rest.drop 4) with
      | some s => some s
      | none => subjectTail rest
    else subjectTail rest
  else none

/-- Fueled `re.search` scan for the subject patterns. -/
def searchSubjectF (key : List Char) : Nat → List Char → Option (List Char)
  | 0, _ => none
  | _ + 1, [] => none
  | fuel + 1, c :: cs =>
    match subjectAt key (c :: cs) with
    | some s => some s
    | none => searchSubjectF key fuel cs

def searchSubject (key : List Char) (l : List Char) : Option (List Char) :=
  searchSubjectF key l.length l

/-- The first colon-containing context line, else the 200-character prefix
(`_answer_what_question`'s context fallback). -/
def whatFromContext (context : String) : String × ℚ :=
  match (splitOnChar '\n' context.data).find? (fun line => line.contains ':') with
  | some line => (pyStrip ⟨line⟩, 0.7)
  | none => (pyTake 200 context, 0.5)

/-- `QAEngine._answer_what_question` (`fields?` is `none` when the document
argument has no `fields` attribute, i.e. on the multi-document path). -/
def answerWhat (q context : String) (fields? : Option FieldMap) : String × ℚ :=
  let subject? :=
    match searchSubject ("what is ".data) q.data with
    | some s => some s
    | none =>
      match searchSubject ("what\x27s ".data) q.data with
      | some s => some s
      | none => searchSubject ("what are ".data) q.data
  match subject? with
  | some s =>
    let subject := pyStripL s
    if subject ≠ [] then
      match fields? with
      | some fields =>
        match fields.find? (fun kv =>
            containsSubL subject (pyLower kv.1).data ||
              containsSubL (pyLower kv.1).data subject) with
        | some kv => ("The " ++ kv.1 ++ " is: " ++ pyStr kv.2, 0.9)
        | none => whatFromContext context
      | none => whatFromContext context
    else whatFromContext context
  | none => whatFromContext context

def isDigitComma (c : Char) : Bool := isDigitChar c || c = ','

/-- One attempt of `\$?[\d,]+(?:\.\d{2})?` at the current position. -/
def numTokenAt (l : List Char) : Option (List Char × List Char) :=
  let core : List Char → Option (List Char × List Char) := fun r =>
    let run := r.takeWhile isDigitComma
    if run = [] then none
    else
      match r.dropWhile isDigitComma with
      | '.' :: d1 :: d2 :: rest =>
        if isDigitChar d1 ∧ isDigitChar d2
        then some (run ++ ['.', d1, d2], rest)
        else some (run, '.' :: d1 :: d2 :: rest)
      | rest => some (run, rest)
  match l with
  | '$' :: r =>
    (match core r with
     | some (tok, rest) => some ('$' :: tok, rest)
     | none => none)
  | r => core r

/-- Fueled `re.findall(r'\$?[\d,]+(?:\.\d{2})?', context)` scan. -/
def numTokensF : Nat → List Char → List (List Char)
  | 0, _ => []
  | _ + 1, [] => []
  | fuel + 1, c :: cs =>
    match numTokenAt (c :: cs) with
    | some (tok, rest) => tok :: numTokensF fuel rest
    | none => numTokensF fuel cs

/-- The numeric/currency tokens of a context. -/
def numTokens (l : List Char) : List (List Char) := numTokensF l.length l

/-- The tokens that survive `float(n.replace('$', '').replace(',', ''))`. -/
def parsedNumbers (context : String) : List ℚ :=
  (numTokens context.data).filterMap (fun n =>
    pyFloatVal ⟨n.filter (fun c => !(c = '$' || c = ','))⟩)

/-- Python `max` over a nonempty list (`0` on the unreachable empty list). -/
def listMax : List ℚ → ℚ
  | [] => 0
  | x :: xs => xs.foldl max x

/-- Python `min` over a nonempty list (`0` on the unreachable empty list). -/
def listMin : List ℚ → ℚ
  | [] => 0
  | x :: xs => xs.foldl min x

/-- Round half-to-even to an integer (the rounding of `format(v, '.2f')`;
every value this pipeline formats is an exact decimal, where the two
coincide with CPython). -/
def roundHalfEven (q : ℚ) : Int :=
  let f := ⌊q⌋
  let r := q - f
  if r < 1/2 then f
  else if 1/2 < r then f + 1
  else if f % 2 = 0 then f else f + 1

/-- Insert thousands separators into a digit string. -/
def commaGroup (s : List Char) : List Char :=
  let rec go : List Char → List Char
    | [] => []
    | ds =>
      if ds.length ≤ 3 then ds
      else match ds with
        | [] => []
        | d :: rest => d :: (if rest.length % 3 = 0 then ',' :: go rest else go rest)
  go s

/-- `f"{v:,.2f}"`: comma-grouped fixed-point rendering with two decimals. -/
def formatCurrency (v : ℚ) : String :=
  let c := roundHalfEven (v * 100)
  let n := c.natAbs
  let fr := n % 100
  (if c < 0 then "-" else "") ++ (⟨commaGroup (natStr (n / 100)).data⟩ : String)
    ++ "." ++ (if fr < 10 then "0" else "") ++ natStr fr

/-- The first context line containing "total" (case-insensitively). -/
def totalLine? (context : String) : Option (List Char) :=
  (splitOnChar '\n' context.data).find?
    (fun line => containsSubL "total".data (pyLower ⟨line⟩).data)

/-- `QAEngine._answer_quantity_question` (its `document` parameter is unused
by the source). -/
def answerQuantity (q context : String) : String × ℚ :=
  let numbers := numTokens context.data
  if numbers ≠ [] then
    let afterTotal :=
      if containsSub "total" q then
        match totalLine? context with
        | some line => some (pyStrip ⟨line⟩, (0.85 : ℚ))
        | none => none
      else none
    match afterTotal with
    | some r => r
    | none =>
      let parsed := parsedNumbers context
      if parsed ≠ [] then
        ("The amount is: $" ++ formatCurrency (listMax parsed), 0.7)
      else ("Based on the form: " ++ pyTake 200 context, 0.5)
  else ("Based on the form: " ++ pyTake 200 context, 0.5)

/-- `QAEngine._answer_who_question`. -/
def answerWho (q context : String) (fields? : Option FieldMap) : String × ℚ :=
  let namePatterns := ["name", "applicant", "employee", "patient", "customer",
    "client"]
  let fromFields : Option (String × PVal) :=
    match fields? with
    | some fields => fields.find? (fun kv =>
        namePatterns.any (fun p => containsSub p (pyLower kv.1)))
    | none => none
  match fromFields with
  | some kv => ("The " ++ kv.1 ++ " is: " ++ pyStr kv.2, 0.9)
  | none =>
    match (splitOnChar '\n' context.data).find? (fun line =>
        namePatterns.any (fun p => containsSubL p.data (pyLower ⟨line⟩).data)) with
    | some line => (pyStrip ⟨line⟩, 0.7)
    | none => ("Based on the form: " ++ pyTake 200 context, 0.5)

/-- `QAEngine._answer_when_question` (the three date patterns are searched in
order, all with `IGNORECASE`). -/
def answerWhen (q context : String) (fields? : Option FieldMap) : String × ℚ :=
  let found :=
    match reSearch dateM1 context.data with
    | some m => some m
    | none =>
      match reSearch dateM2 context.data with
      | some m => some m
      | none => reSearch dateM3 context.data
  match found with
  | some m => ("The date is: " ++ (⟨m⟩ : String), 0.8)
  | none =>
    let fromFields : Option (String × PVal) :=
      match fields? with
      | some fields => fields.find? (fun kv => containsSub "date" (pyLower kv.1))
      | none => none
    match fromFields with
    | some kv => ("The " ++ kv.1 ++ " is: " ++ pyStr kv.2, 0.9)
    | none => ("Based on the form: " ++ pyTake 200 context, 0.5)

/-- `QAEngine._answer_where_question`. -/
def answerWhere (q context : String) (fields? : Option FieldMap) : String × ℚ :=
  let locationPatterns := ["address", "location", "city", "state", "zip",
    "street"]
  let fromFields : Option (String × PVal) :=
    match fields? with
    | some fields => fields.find? (fun kv =>
        locationPatterns.any (fun p => containsSub p (pyLower kv.1)))
    | none => none
  match fromFields with
  | some kv => ("The " ++ kv.1 ++ " is: " ++ pyStr kv.2, 0.9)
  | none =>
    match (splitOnChar '\n' context.data).find? (fun line =>
        locationPatterns.any (fun p => containsSubL p.data (pyLower ⟨line⟩).data)) with
    | some line => (pyStrip ⟨line⟩, 0.7)
    | none => ("Based on the form: " ++ pyTake 200 context, 0.5)

/-- `QAEngine._generate_answer`: the empty-context terminal case, then the
fixed-priority intent dispatch. -/
def generateAnswer (question context : String) (fields? : Option FieldMap) :
    String × ℚ :=
  if context = "" then
    ("I couldn\x27t find relevant information to answer this question.", 0)
  else
    let ql := pyLower question
    if ["what is", "what\x27s", "what are"].any (fun w => containsSub w ql) then
      answerWhat ql context fields?
    else if ["how much", "how many", "total", "sum", "amount"].any
        (fun w => containsSub w ql) then
      answerQuantity ql context
    else if ["who", "whose"].any (fun w => containsSub w ql) then
      answerWho ql context fields?
    else if ["when", "date"].any (fun w => containsSub w ql) then
      answerWhen ql context fields?
    else if ["where", "address", "location"].any (fun w => containsSub w ql) then
      answerWhere ql context fields?
    else ("Based on the form: " ++ pyTake 300 context ++ "...", 0.6)

/-- `QAEngine.answer`. -/
def answer (useEmb : Bool) (emb : Option (String → String → ℚ)) (topK : Nat)
    (question : String) (doc : FormDocument) : QueryResult :=
  let rc := retrieveContext useEmb emb topK question doc
  let ac := generateAnswer question rc.1 (some doc.fields)
  ⟨question, ac.1, ac.2, rc.2, if rc.1 = "" then "" else pyTake 500 rc.1⟩

/-- `QAEngine.answer_multiple`: per-document retrieval, labeled context
blocks joined by blank lines, synthesis over the combined context (the
document argument of `_generate_answer` is then a list, which has no
`fields` attribute).  `list(set(...))` on the source fields has arbitrary
order; first-occurrence order is used here (no claim depends on it). -/
def answerMultiple (useEmb : Bool) (emb : Option (String → String → ℚ))
    (topK : Nat) (question : String) (docs : List FormDocument) : QueryResult :=
  let pairs := docs.filterMap (fun d =>
    let rc := retrieveContext useEmb emb topK question d
    if rc.1 ≠ "" then some ("[" ++ d.file_path ++ "]: " ++ rc.1, rc.2) else none)
  let combined := String.intercalate "\n\n" (pairs.map (·.1))
  let ac := generateAnswer question combined none
  ⟨question, ac.1, ac.2, (pairs.flatMap (·.2)).dedup,
    if combined = "" then "" else pyTake 1000 combined⟩

/-! ### Cross-document aggregation (`QAEngine.cross_form_analysis`) -/

/-- The numeric coercion of the aggregation loop: raw ints/floats (and
booleans, which Python counts as ints), and dictionary values with a `value`
entry coercible by `float` (Currency always, Date only when its text parses
as a number, which no pipeline-produced date does). -/
def numericOf : PVal → Option ℚ
  | .pint n => some (n : ℚ)
  | .pfloat q => some q
  | .pbool b => some (if b then 1 else 0)
  | .pcurrency v _ => some v
  | .pdate s => pyFloatVal s
  | _ => none

/-- The field names across all documents, in first-appearance order (the key
order of `all_fields`). -/
def allFieldNames (docs : List FormDocument) : List String :=
  (docs.flatMap (fun d => d.fields.map (·.1))).dedup

/-- All values recorded for a field name, in document order (the value list
of `all_fields[field]`). -/
def fieldValues (docs : List FormDocument) (f : String) : List PVal :=
  docs.flatMap (fun d => (d.fields.filter (fun kv => kv.1 = f)).map (·.2))

/-- The per-field numeric summary entry. -/
structure FieldStats where
  count : Nat
  sum : ℚ
  average : ℚ
  min : ℚ
  max : ℚ
deriving DecidableEq, Repr

/-- The `field_summary` map of `cross_form_analysis`: an entry for every
field with at least one numeric-coercible value. -/
def fieldSummary (docs : List FormDocument) : List (String × FieldStats) :=
  (allFieldNames docs).filterMap (fun f =>
    let nums := (fieldValues docs f).filterMap numericOf
    if nums = [] then none
    else
      some (f, ⟨nums.length, nums.sum, nums.sum / (nums.length : ℚ),
        listMin nums, listMax nums⟩))

/-- `common_fields`: field names recorded once per document in every
document. -/
def commonFields (docs : List FormDocument) : List String :=
  (allFieldNames docs).filter (fun f => (fieldValues docs f).length = docs.length)

/-- The result map of `cross_form_analysis`. -/
structure CrossFormAnalysis where
  total_documents : Nat
  common_fields : List String
  schema_types : List (Option String)
  field_summary : List (String × FieldStats)
  insights : List String
  answer : String
deriving Repr

/-- `QAEngine._generate_insights` (Python iterates a `set` of schema types in
arbitrary order; first-occurrence order is used here — no claim depends on
it). -/
def generateInsights (docs : List FormDocument)
    (analysisCommon : List String) (summary : List (String × FieldStats)) :
    List String :=
  let uniqueSchemas := ((docs.map (·.schema_type)).filterMap (fun o =>
    match o with
    | some s => if s ≠ "" then some s else none
    | none => none)).dedup
  let i1 : List String :=
    if 1 < uniqueSchemas.length then
      ["Forms include " ++ natStr uniqueSchemas.length ++ " different types: "
        ++ String.intercalate ", " uniqueSchemas]
    else if uniqueSchemas.length = 1 then
      ["All forms are of type: " ++ uniqueSchemas.headD ""]
    else []
  let i2 : List String :=
    if analysisCommon ≠ [] then
      ["All forms share these fields: "
        ++ String.intercalate ", " (analysisCommon.take 5)]
    else []
  let i3 : List String := summary.filterMap (fun fs =>
    if 1 < fs.2.count ∧
        (containsSub "salary" (pyLower fs.1) ∨ containsSub "income" (pyLower fs.1)
          ∨ containsSub "amount" (pyLower fs.1)) then
      some ("Average " ++ fs.1 ++ ": $" ++ formatCurrency fs.2.average
        ++ " (range: $" ++ formatCurrency fs.2.min ++ " - $"
        ++ formatCurrency fs.2.max ++ ")")
    else none)
  i1 ++ i2 ++ i3

/-- `QAEngine.cross_form_analysis`. -/
def crossFormAnalysis (useEmb : Bool) (emb : Option (String → String → ℚ))
    (topK : Nat) (question : String) (docs : List FormDocument) :
    CrossFormAnalysis :=
  let summary := fieldSummary docs
  let common := commonFields docs
  ⟨docs.length, common, docs.map (·.schema_type), summary,
    generateInsights docs common summary,
    (answerMultiple useEmb emb topK question docs).answer⟩

/-- Membership in the per-field value list. -/
theorem mem_fieldValues {docs : List FormDocument} {f : String} {v : PVal} :
    v ∈ fieldValues docs f ↔ ∃ d ∈ docs, (f, v) ∈ d.fields := by
  rw [fieldValues, List.mem_flatMap]
  constructor
  · rintro ⟨d, hd, hv⟩
    obtain ⟨kv, hkv, rfl⟩ := List.mem_map.mp hv
    obtain ⟨hmem, hpred⟩ := List.mem_filter.mp hkv
    have : kv.1 = f := by simpa using hpred
    exact ⟨d, hd, by rw [← this]; exact hmem⟩
  · rintro ⟨d, hd, hv⟩
    exact ⟨d, hd, List.mem_map.mpr ⟨(f, v),
      List.mem_filter.mpr ⟨hv, by simp⟩, rfl⟩⟩

/-- Claim C4 (amended) — the `field_summary` of `cross_form_analysis` has an
entry for a field name exactly when that name carries a numeric-coercible
value (raw number, or a Currency/Number style typed value) in at least **one**
of the input documents. -/
theorem fieldSummary_entry_iff (docs : List FormDocument) (f : String) :
    ((fieldSummary docs).find? (fun kv => kv.1 = f)).isSome = true ↔
      ∃ d ∈ docs, ∃ v, (f, v) ∈ d.fields ∧ (numericOf v).isSome = true := by
  rw [List.find?_isSome]
  constructor
  · rintro ⟨kv, hkv, hp⟩
    have hf : kv.1 = f := by simpa using hp
    obtain ⟨f', hf', hsome⟩ := List.mem_filterMap.mp hkv
    by_cases hnil : (fieldValues docs f').filterMap numericOf = []
    · simp [hnil] at hsome
    · simp only [hnil, if_false, ite_false] at hsome
      injection hsome with hsome
      have hkey : f' = f := by rw [← hf, ← hsome]
      subst hkey
      obtain ⟨x, xs, hcons⟩ := List.exists_cons_of_ne_nil hnil
      have hx : x ∈ (fieldValues docs f').filterMap numericOf := by
        rw [hcons]; exact List.mem_cons_self _ _
      obtain ⟨v, hv, hnum⟩ := List.mem_filterMap.mp hx
      obtain ⟨d, hd, hdf⟩ := mem_fieldValues.mp hv
      exact ⟨d, hd, v, hdf, by rw [hnum]; rfl⟩
  · rintro ⟨d, hd, v, hv, hnum⟩
    have hname : f ∈ allFieldNames docs := by
      rw [allFieldNames, List.mem_dedup, List.mem_flatMap]
      exact ⟨d, hd, List.mem_map.mpr ⟨(f, v), hv, rfl⟩⟩
    obtain ⟨q, hq⟩ := Option.isSome_iff_exists.mp hnum
    have hvin : v ∈ fieldValues docs f := mem_fieldValues.mpr ⟨d, hd, hv⟩
    have hqin : q ∈ (fieldValues docs f).filterMap numericOf :=
      List.mem_filterMap.mpr ⟨v, hvin, hq⟩
    have hne : (fieldValues docs f).filterMap numericOf ≠ [] :=
      fun hnil => by rw [hnil] at hqin; cases hqin
    refine ⟨(f, ⟨((fieldValues docs f).filterMap numericOf).length,
      ((fieldValues docs f).filterMap numericOf).sum,
      ((fieldValues docs f).filterMap numericOf).sum /
        (((fieldValues docs f).filterMap numericOf).length : ℚ),
      listMin ((fieldValues docs f).filterMap numericOf),
      listMax ((fieldValues docs f).filterMap numericOf)⟩),
      List.mem_filterMap.mpr ⟨f, hname, by simp [hne]⟩, by simp⟩

/-- A single document with one numeric field, for exercising the
cross-document aggregator. -/
def c4Docs : List FormDocument := [⟨"a.pdf", "", [("Amount", .pint 5)], [], none⟩]

/-- Counterexample to claim C4 as stated: with a single input document whose
`Amount` field is numeric, the field is numeric-coercible in exactly one
document — fewer than 2 — yet `field_summary` contains an entry for it. -/
theorem fieldSummary_c4_counterexample :
    ((fieldSummary c4Docs).find? (fun kv => kv.1 = "Amount")).isSome = true ∧
    (c4Docs.filter (fun d => d.fields.any (fun kv =>
        kv.1 = "Amount" && (numericOf kv.2).isSome))).length = 1 := by
  constructor
  · decide
  · decide

/-- Claim C7 (amended) — the quantity-intent answer: when the context has
numeric-pattern tokens and the question mentions "total" and some context
line contains "total", the first such line (stripped) is returned at
confidence 0.85; otherwise, when some token parses as a number, the maximum
parsed value is reported as currency at confidence 0.7; otherwise (including
when every token is a bare comma run) the generic 0.5 fallback is returned,
as it is when there are no tokens at all. -/
theorem answerQuantity_spec (q ctx : String) :
    (∀ line, numTokens ctx.data ≠ [] → containsSub "total" q = true →
        totalLine? ctx = some line →
        answerQuantity q ctx = (pyStrip ⟨line⟩, 0.85)) ∧
    (numTokens ctx.data ≠ [] →
      (containsSub "total" q = false ∨ totalLine? ctx = none) →
      parsedNumbers ctx ≠ [] →
      answerQuantity q ctx =
        ("The amount is: $" ++ formatCurrency (listMax (parsedNumbers ctx)),
          0.7)) ∧
    (numTokens ctx.data ≠ [] →
      (containsSub "total" q = false ∨ totalLine? ctx = none) →
      parsedNumbers ctx = [] →
      answerQuantity q ctx = ("Based on the form: " ++ pyTake 200 ctx, 0.5)) ∧
    (numTokens ctx.data = [] →
      answerQuantity q ctx = ("Based on the form: " ++ pyTake 200 ctx, 0.5)) := by
  refine ⟨?_, ?_, ?_, ?_⟩
  · intro line h1 h2 h3
    simp [answerQuantity, h1, h2, h3]
  · intro h1 h2 h3
    rcases h2 with h2 | h2
    · simp [answerQuantity, h1, h2, h3]
    · by_cases ht : containsSub "total" q = true
      · simp [answerQuantity, h1, h2, h3, ht]
      · simp [answerQuantity, h1, h2, h3, ht]
  · intro h1 h2 h3
    rcases h2 with h2 | h2
    · simp [answerQuantity, h1, h2, h3]
    · by_cases ht : containsSub "total" q = true
      · simp [answerQuantity, h1, h2, h3, ht]
      · simp [answerQuantity, h1, h2, h3, ht]
  · intro h1
    simp [answerQuantity, h1]

/-- Counterexample to claim C7 as stated: the context `"total, sure"`
contains one pattern token — the bare comma — so no numeric value can be
parsed; the claim's reading then demands the generic 0.5 fallback, yet the
question mentioning "total" still triggers the total-line branch at
confidence 0.85. -/
theorem answerQuantity_c7_counterexample :
    answerQuantity "how many total" "total, sure" = ("total, sure", 0.85) ∧
    parsedNumbers "total, sure" = [] ∧
    numTokens ("total, sure").data = [[',']] := by
  refine ⟨rfl, by decide, by decide⟩

/-- Witness for the amended claim C7 at a concrete question and context. -/
theorem answerQuantity_spec_witness :
    answerQuantity "how many total" "total 50" =
      (pyStrip ⟨("total 50").data⟩, 0.85) :=
  (answerQuantity_spec "how many total" "total 50").1 ("total 50").data
    (by decide) (by decide) (by decide)

/-- The fixed no-context answer text of `_generate_answer`. -/
def noContextMsg : String :=
  "I couldn\x27t find relevant information to answer this question."

/-- Claim C8 — when context retrieval yields an empty context the answer is
the fixed "no relevant information" text at confidence exactly 0 (whatever
the question, so no intent-dependent processing is observable), and a
document with empty raw text and empty fields always yields an empty
retrieved context. -/
theorem answer_no_context (useEmb : Bool) (emb : Option (String → String → ℚ))
    (topK : Nat) (question : String) (doc : FormDocument) :
    ((retrieveContext useEmb emb topK question doc).1 = "" →
      answer useEmb emb topK question doc =
        ⟨question, noContextMsg, 0,
          (retrieveContext useEmb emb topK question doc).2, ""⟩) ∧
    (doc.raw_text = "" → doc.fields = [] →
      (retrieveContext useEmb emb topK question doc).1 = "") := by
  constructor
  · intro h
    rw [answer]
    simp only [h]
    rw [generateAnswer, if_pos rfl]
    rfl
  · intro hraw hflds
    rcases doc with ⟨fp, rt, flds, tbls, st⟩
    simp only at hraw hflds
    subst hraw
    subst hflds
    have hsem : semanticSearch emb topK question ⟨fp, "", [], tbls, st⟩ = [] := by
      rcases emb with _ | sim
      · rfl
      · rfl
    simp [retrieveContext, hsem, extractRelevantSnippets]
    rfl

/-- Witness for C8 at a concrete empty document. -/
theorem answer_no_context_witness :
    answer true none 5 "what is the name" ⟨"f.txt", "", [], [], none⟩ =
      ⟨"what is the name", noContextMsg, 0,
        (retrieveContext true none 5 "what is the name"
          ⟨"f.txt", "", [], [], none⟩).2, ""⟩ :=
  (answer_no_context true none 5 "what is the name"
      ⟨"f.txt", "", [], [], none⟩).1
    ((answer_no_context true none 5 "what is the name"
      ⟨"f.txt", "", [], [], none⟩).2 rfl rfl)

end QAEngine

namespace FieldParser

open FormAnalyser

/-! ### `src/processors/field_parser.py`

The six label/value patterns are applied with `re.MULTILINE` over the whole
text: `^` anchors a match to position 0 or any position after a newline, the
character classes containing `\s` let names and gaps cross newlines, and `$`
matches before a newline or at the end.  Each pattern gets a bespoke
anchored matcher plus a scanner reproducing `findall`'s left-to-right
non-overlapping scan. -/

/-- The class `[A-Za-z0-9\s\-_/()]` of pattern 1. -/
def isClass1 (c : Char) : Bool :=
  isAsciiAlpha c || isDigitChar c || isPySpace c || c = '-' || c = '_' ||
    c = '/' || c = '(' || c = ')'

/-- The class `[A-Za-z0-9\s_]` of patterns 2 and 3. -/
def isClass2 (c : Char) : Bool :=
  isAsciiAlpha c || isDigitChar c || isPySpace c || c = '_'

/-- The class `[A-Z0-9\s]` of pattern 4. -/
def isClass4 (c : Char) : Bool :=
  ('A' ≤ c && c ≤ 'Z') || isDigitChar c || isPySpace c

/-- The class `[A-Za-z0-9\s]` of pattern 5. -/
def isClass5 (c : Char) : Bool :=
  isAsciiAlpha c || isDigitChar c || isPySpace c

/-- The value tail `\s*(.+)$` after a separator: the greedy `\s*` may cross
newlines; `(.+)` then takes the rest of that line; when everything left is
whitespace, backtracking makes `.` capture the last whitespace character
before a (possibly empty) run of newlines.  Returns the captured group and
the unconsumed remainder. -/
def tailMatch (l : List Char) : Option (List Char × List Char) :=
  let rest := l.dropWhile isPySpace
  if rest ≠ [] then
    some (rest.takeWhile (fun c => c ≠ '\n'), rest.dropWhile (fun c => c ≠ '\n'))
  else
    let trail := (l.reverse.takeWhile (fun c => c = '\n')).length
    if trail < l.length then
      some ((l.drop (l.length - trail - 1)).take 1, l.drop (l.length - trail))
    else none

/-- The checkbox tail `\s*(.+?)(?:\n|$)`: same captured span as `tailMatch`
(the lazy group is forced to the next newline), but a following newline is
consumed by the match. -/
def tailMatchNL (l : List Char) : Option (List Char × List Char) :=
  match tailMatch l with
  | some (g, '\n' :: r) => some (g, r)
  | some (g, r) => some (g, r)
  | none => none

/-- The common core `([A-Za-z][class]+?):\s*(.+)$`: the separator colon is
not in any class, so the lazy group extends exactly to the first
non-class character, which must be the colon. -/
def nameColonTail (isClass : Char → Bool) (l : List Char) :
    Option ((List Char × List Char) × List Char) :=
  match l with
  | c :: cs =>
    if isAsciiAlpha c then
      let run := cs.takeWhile isClass
      if run = [] then none
      else
        match cs.dropWhile isClass with
        | ':' :: r2 =>
          match tailMatch r2 with
          | some (g2, after) => some ((c :: run, g2), after)
          | none => none
        | _ => none
    else none
  | [] => none

/-- Pattern 1: `^([A-Za-z][A-Za-z0-9\s\-_/()]+?):\s*(.+)$`. -/
def p1At (l : List Char) : Option ((List Char × List Char) × List Char) :=
  nameColonTail isClass1 l

/-- Separator-style patterns 2 and 3 (`dash` / `=`): the separator is not in
the class, so the lazy group stops at the earliest point from which `\s*`
reaches the separator. -/
def sepPatternAt (isSep : Char → Bool) (l : List Char) :
    Option ((List Char × List Char) × List Char) :=
  match l with
  | c :: cs =>
    if isAsciiAlpha c then
      let run := cs.takeWhile isClass2
      if run = [] then none
      else
        match cs.dropWhile isClass2 with
        | s :: r2 =>
          if isSep s then
            let trailingWs := (run.reverse.takeWhile isPySpace).length
            let i := max 1 (run.length - trailingWs)
            match tailMatch r2 with
            | some (g2, after) => some ((c :: run.take i, g2), after)
            | none => none
          else none
        | [] => none
    else none
  | [] => none

/-- Pattern 2: `^([A-Za-z][A-Za-z0-9\s_]+?)\s*[-–—]\s*(.+)$`. -/
def p2At (l : List Char) : Option ((List Char × List Char) × List Char) :=
  sepPatternAt (fun c => c = '-' || c = '–' || c = '—') l

/-- Pattern 3: `^([A-Za-z][A-Za-z0-9\s_]+?)\s*=\s*(.+)$`. -/
def p3At (l : List Char) : Option ((List Char × List Char) × List Char) :=
  sepPatternAt (fun c => c = '=') l

/-- Pattern 4: `^([A-Z][A-Z0-9\s]+):\s*(.+)$` (greedy, but the colon is not
in the class, so the group is the whole class run). -/
def p4At (l : List Char) : Option ((List Char × List Char) × List Char) :=
  match l with
  | c :: cs =>
    if 'A' ≤ c ∧ c ≤ 'Z' then
      let run := cs.takeWhile isClass4
      if run = [] then none
      else
        match cs.dropWhile isClass4 with
        | ':' :: r2 =>
          match tailMatch r2 with
          | some (g2, after) => some ((c :: run, g2), after)
          | none => none
        | _ => none
    else none
  | [] => none

/-- Pattern 5: `^\d+\.\s*([A-Za-z][A-Za-z0-9\s]+?):\s*(.+)$`. -/
def p5At (l : List Char) : Option ((List Char × List Char) × List Char) :=
  let d := l.takeWhile isDigitChar
  if d = [] then none
  else
    match l.dropWhile isDigitChar with
    | '.' :: r2 => nameColonTail isClass5 (r2.dropWhile isPySpace)
    | _ => none

def isMark (c : Char) : Bool := c = 'x' || c = 'X' || c = '✓' || c = '✔'

/-- Pattern 6: `\[([xX✓✔]|\s)\]\s*(.+)$` (not anchored to line starts). -/
def p6At (l : List Char) : Option ((List Char × List Char) × List Char) :=
  match l with
  | '[' :: m :: ']' :: r =>
    if isMark m || isPySpace m then
      match tailMatch r with
      | some (g2, after) => some (([m], g2), after)
      | none => none
    else none
  | _ => none

/-- Fueled `findall` scan for the `^`-anchored patterns: a match may start
only at position 0 or right after a newline; every successful match ends
mid-line, so scanning resumes off a line start. -/
def scanLinesF (m : List Char → Option ((List Char × List Char) × List Char)) :
    Nat → Bool → List Char → List (List Char × List Char)
  | 0, _, _ => []
  | _ + 1, _, [] => []
  | fuel + 1, atStart, c :: cs =>
    if atStart then
      match m (c :: cs) with
      | some (g, rest) => g :: scanLinesF m fuel false rest
      | none => scanLinesF m fuel (c = '\n') cs
    else scanLinesF m fuel (c = '\n') cs

def scanLines (m : List Char → Option ((List Char × List Char) × List Char))
    (l : List Char) : List (List Char × List Char) :=
  scanLinesF m l.length true l

/-- Fueled `findall` scan for unanchored patterns. -/
def scanAllF {α : Type} (m : List Char → Option (α × List Char)) :
    Nat → List Char → List α
  | 0, _ => []
  | _ + 1, [] => []
  | fuel + 1, c :: cs =>
    match m (c :: cs) with
    | some (g, rest) => g :: scanAllF m fuel rest
    | none => scanAllF m fuel cs

def scanAll {α : Type} (m : List Char → Option (α × List Char))
    (l : List Char) : List α :=
  scanAllF m l.length l

/-! #### Value typing (`_process_value`) -/

def isDigitComma (c : Char) : Bool := isDigitChar c || c = ','

/-- Maximal run of `,ddd` groups (`(?:,\d{3})*`; abandoning repetitions never
rescues a later failure for this pattern, so the greedy parse is exact). -/
def commaGroups : List Char → List Char
  | ',' :: d1 :: d2 :: d3 :: r =>
    if isDigitChar d1 ∧ isDigitChar d2 ∧ isDigitChar d3 then commaGroups r
    else ',' :: d1 :: d2 :: d3 :: r
  | l => l

/-- `re.match` of the currency pattern
`\$[\d,]+(?:\.\d{2})?|\d+(?:,\d{3})*(?:\.\d{2})?\s*(?:USD|EUR|GBP|dollars?)`
(a prefix match; trailing text is allowed). -/
def currencyMatch (l : List Char) : Bool :=
  let alt1 : Bool :=
    match l with
    | '$' :: r => r.takeWhile isDigitComma ≠ []
    | _ => false
  let alt2 : Bool :=
    let d := l.takeWhile isDigitChar
    if d = [] then false
    else
      let r := commaGroups (l.dropWhile isDigitChar)
      let r := match r with
        | '.' :: d1 :: d2 :: rest =>
          if isDigitChar d1 ∧ isDigitChar d2 then rest
          else '.' :: d1 :: d2 :: rest
        | rest => rest
      let r := r.dropWhile isPySpace
      ["USD", "EUR", "GBP", "dollar"].any (fun w => w.data.isPrefixOf r)
  alt1 || alt2

/-- `re.match` against any of the four date patterns. -/
def dateMatchAny (l : List Char) : Bool :=
  (dateM1 l).isSome || (dateM2 l).isSome || (dateM3 l).isSome ||
    (dateM4 l).isSome

/-- Python `str.isdigit` (ASCII fragment; the source never feeds non-ASCII
digit characters, for which CPython's `isdigit` is broader). -/
def isPyDigits (l : List Char) : Bool := l ≠ [] && l.all isDigitChar

/-- `FieldParser._process_value`: the ordered currency → date → boolean →
number → plain-string cascade. -/
def processValue (value : String) : PVal :=
  let v := pyStrip value
  let currency : Option PVal :=
    if currencyMatch v.data then
      match pyFloatVal ⟨v.data.filter (fun c => isDigitChar c || c = '.')⟩ with
      | some q => some (.pcurrency q v)
      | none => none
    else none
  match currency with
  | some pv => pv
  | none =>
    if dateMatchAny v.data then .pdate v
    else if ["yes", "no", "true", "false", "y", "n"].contains (pyLower v) then
      .pbool (["yes", "true", "y"].contains (pyLower v))
    else if v.data.contains '.' then
      match pyFloatVal ⟨v.data.filter (fun c => c ≠ ',')⟩ with
      | some q => .pfloat q
      | none => .pstr v
    else if isPyDigits v.data then .pint (digitsVal v.data)
    else if (match v.data with
        | '-' :: rest => isPyDigits rest
        | _ => false) then
      .pint (-(digitsVal (v.data.drop 1) : Int))
    else .pstr v

/-- `FieldParser._normalize_field_name`. -/
def normalizeFieldName (s : String) : String := pyStrip ⟨joinWordsL s.data⟩

/-- The generic-name stoplist of `parse`. -/
def fieldStoplist : List String :=
  ["a", "b", "c", "i", "ii", "iii", "the", "and", "or"]

/-- The body of the pattern/match loop of `parse`: normalize, filter and
assign one captured `(label, value)` pair. -/
def processMatch (fields : FieldMap) (g : List Char × List Char) : FieldMap :=
  let name := normalizeFieldName ⟨g.1⟩
  let value := pyStrip ⟨g.2⟩
  if 500 < value.data.length then fields
  else if fieldStoplist.contains (pyLower name) then fields
  else if name ≠ "" ∧ value ≠ "" then dictSet fields name (processValue value)
  else fields

/-! #### Special extractors (`_extract_special_fields`) -/

def isLocalChar (c : Char) : Bool :=
  isAsciiAlpha c || isDigitChar c || c = '.' || c = '_' || c = '%' ||
    c = '+' || c = '-'

def isDomainChar (c : Char) : Bool :=
  isAsciiAlpha c || isDigitChar c || c = '.' || c = '-'

/-- `[a-zA-Z0-9._%+-]+@[a-zA-Z0-9.-]+\.[a-zA-Z]{2,}` at the current
position: the greedy domain run backtracks to the last dot followed by at
least two letters. -/
def emailAt (l : List Char) : Option (List Char × List Char) :=
  let loc := l.takeWhile isLocalChar
  if loc = [] then none
  else
    match l.dropWhile isLocalChar with
    | '@' :: r =>
      let D := r.takeWhile isDomainChar
      let afterD := r.dropWhile isDomainChar
      let dots := (List.range D.length).filter (fun t =>
        1 ≤ t ∧ D.get? t = some '.' ∧
          2 ≤ ((D.drop (t + 1)).takeWhile isAsciiAlpha).length)
      match dots.getLast? with
      | some t =>
        let tld := (D.drop (t + 1)).takeWhile isAsciiAlpha
        some (loc ++ '@' :: D.take t ++ '.' :: tld,
          (D.drop (t + 1)).drop tld.length ++ afterD)
      | none => none
    | _ => none

/-- A mandatory literal character step. -/
def seqChar (ch : Char) (k : List Char → Option (List Char × List Char))
    (l : List Char) : Option (List Char × List Char) :=
  match l with
  | c :: cs =>
    if c = ch then
      match k cs with
      | some (m, rest) => some (c :: m, rest)
      | none => none
    else none
  | [] => none

/-- A greedy optional single-character step with backtracking (`X?`). -/
def optChar (p : Char → Bool) (k : List Char → Option (List Char × List Char))
    (l : List Char) : Option (List Char × List Char) :=
  match l with
  | c :: cs =>
    if p c then
      match k cs with
      | some (m, rest) => some (c :: m, rest)
      | none => k (c :: cs)
    else k (c :: cs)
  | [] => k []

/-- An exact digit-count step (`\d{n}`). -/
def seqDigits (n : Nat) (k : List Char → Option (List Char × List Char))
    (l : List Char) : Option (List Char × List Char) :=
  let d := l.take n
  if d.length = n ∧ d.all isDigitChar then
    match k (l.drop n) with
    | some (m, rest) => some (d ++ m, rest)
    | none => none
  else none

def isPhoneSep (c : Char) : Bool := c = '-' || c = '.' || isPySpace c

def matchEnd (l : List Char) : Option (List Char × List Char) := some ([], l)

/-- The core `\(?\d{3}\)?[-.\s]?\d{3}[-.\s]?\d{4}` of the phone pattern. -/
def phoneCore : List Char → Option (List Char × List Char) :=
  optChar (fun c => c = '(')
    (seqDigits 3 (optChar (fun c => c = ')')
      (optChar isPhoneSep (seqDigits 3 (optChar isPhoneSep
        (seqDigits 4 matchEnd))))))

/-- `(?:\+?1[-.\s]?)?\(?\d{3}\)?[-.\s]?\d{3}[-.\s]?\d{4}` at the current
position. -/
def phoneAt (l : List Char) : Option (List Char × List Char) :=
  match optChar (fun c => c = '+') (seqChar '1' (optChar isPhoneSep phoneCore)) l with
  | some x => some x
  | none => phoneCore l

def isDashSpace (c : Char) : Bool := c = '-' || isPySpace c

/-- `\d{3}[-\s]?\d{2}[-\s]?\d{4}` (the SSN shape) at the current position. -/
def ssnAt : List Char → Option (List Char × List Char) :=
  seqDigits 3 (optChar isDashSpace (seqDigits 2 (optChar isDashSpace
    (seqDigits 4 matchEnd))))

/-- The tail `\s*[:\-]?\s*$` of the date-label pattern, consuming all of
`l`. -/
def labelTailOk (l : List Char) : Bool :=
  match l.dropWhile isPySpace with
  | [] => true
  | c :: rest => (c = ':' || c = '-') && rest.all isPySpace

/-- One attempt of `([A-Za-z]+(?:\s+[A-Za-z]+)?)\s*[:\-]?\s*$` (the greedy
inner pieces are deterministic; the optional two-word form is tried
first). -/
def labelAt (l : List Char) : Option (List Char) :=
  match l with
  | c :: cs =>
    if isAsciiAlpha c then
      let A := c :: cs.takeWhile isAsciiAlpha
      let r1 := cs.dropWhile isAsciiAlpha
      let ws := r1.takeWhile isPySpace
      let r2 := r1.dropWhile isPySpace
      let withGroup : Option (List Char) :=
        if ws ≠ [] then
          match r2 with
          | d :: ds =>
            if isAsciiAlpha d then
              if labelTailOk (ds.dropWhile isAsciiAlpha) then
                some (A ++ ws ++ d :: ds.takeWhile isAsciiAlpha)
              else none
            else none
          | [] => none
        else none
      match withGroup with
      | some g => some g
      | none => if labelTailOk r1 then some A else none
    else none
  | [] => none

/-- Fueled `re.search` for the date-label pattern. -/
def labelSearchF : Nat → List Char → Option (List Char)
  | 0, _ => none
  | _ + 1, [] => none
  | fuel + 1, c :: cs =>
    match labelAt (c :: cs) with
    | some g => some g
    | none => labelSearchF fuel cs

def labelSearch (l : List Char) : Option (List Char) := labelSearchF l.length l

/-- `FieldParser._extract_special_fields`: emails, phones, masked SSNs, and
labeled dates. -/
def specialFields (text : List Char) : FieldMap :=
  let fields : FieldMap := []
  let emails := scanAll emailAt text
  let fields :=
    match emails with
    | [] => fields
    | [e] => dictSet fields "Email" (.pstr ⟨e⟩)
    | es => es.enum.foldl (fun fs ie =>
        dictSet fs ("Email " ++ natStr (ie.1 + 1)) (.pstr ⟨ie.2⟩)) fields
  let phones := scanAll phoneAt text
  let fields :=
    match phones with
    | [] => fields
    | [p] => dictSet fields "Phone" (.pstr ⟨p⟩)
    | ps => ps.enum.foldl (fun fs ip =>
        dictSet fs ("Phone " ++ natStr (ip.1 + 1)) (.pstr ⟨ip.2⟩)) fields
  let ssns := scanAll ssnAt text
  let fields :=
    if ssns = [] then fields
    else ssns.enum.foldl (fun fs is =>
      let masked := "XXX-XX-" ++ (⟨is.2.drop (is.2.length - 4)⟩ : String)
      let key := if ssns.length = 1 then "SSN" else "SSN " ++ natStr (is.1 + 1)
      dictSet fs key (.pstr masked)) fields
  [dateM1, dateM2, dateM3, dateM4].foldl (fun fs m =>
    (reFinditer m text).foldl (fun fs2 pm =>
      let start := pm.1 - 50
      let context := pyStripL ((text.drop start).take (pm.1 - start))
      match labelSearch context with
      | some g =>
        let label := pyStripL g
        if ["on", "of", "the", "at", "by"].contains (pyLower ⟨label⟩) then fs2
        else dictSet fs2 ((⟨label⟩ : String) ++ " Date") (.pstr ⟨pm.2⟩)
      | none => fs2) fs) fields

/-! #### Checkbox extraction (`_extract_checkboxes`) -/

def cb1At (l : List Char) : Option (List Char × List Char) :=
  match l with
  | '[' :: m :: ']' :: r => if isMark m then tailMatchNL r else none
  | _ => none

def cb2At (l : List Char) : Option (List Char × List Char) :=
  match l with
  | '[' :: r =>
    match r.dropWhile isPySpace with
    | ']' :: r2 => tailMatchNL r2
    | _ => none
  | _ => none

def cb3At (l : List Char) : Option (List Char × List Char) :=
  match l with
  | '☑' :: r => tailMatchNL r
  | _ => none

def cb4At (l : List Char) : Option (List Char × List Char) :=
  match l with
  | '☐' :: r => tailMatchNL r
  | _ => none

def cb5At (l : List Char) : Option (List Char × List Char) :=
  match l with
  | '(' :: m :: ')' :: r => if isMark m then tailMatchNL r else none
  | _ => none

def cb6At (l : List Char) : Option (List Char × List Char) :=
  match l with
  | '(' :: r =>
    match r.dropWhile isPySpace with
    | ')' :: r2 => tailMatchNL r2
    | _ => none
  | _ => none

/-- `FieldParser._extract_checkboxes`: the aggregated `Selected Options` and
`Unselected Options` string lists. -/
def extractCheckboxes (text : List Char) : FieldMap :=
  let clean := fun (items : List (List Char)) =>
    (items.map pyStripL).filter (fun i => i ≠ [] ∧ i.length < 100)
  let checked := clean (scanAll cb1At text) ++ clean (scanAll cb3At text) ++
    clean (scanAll cb5At text)
  let unchecked := clean (scanAll cb2At text) ++ clean (scanAll cb4At text) ++
    clean (scanAll cb6At text)
  let fs : FieldMap := []
  let fs :=
    if checked ≠ [] then
      dictSet fs "Selected Options"
        (.plist (checked.map (fun i => (⟨i⟩ : String))))
    else fs
  if unchecked ≠ [] then
    dictSet fs "Unselected Options"
      (.plist (unchecked.map (fun i => (⟨i⟩ : String))))
  else fs

/-- `FieldParser.parse`: the six pattern scans (in order), then the special
extractors, then the checkbox extractor, all merged last-write-wins. -/
def parse (text : String) : FieldMap :=
  if text = "" then []
  else
    let t := text.data
    let fields := [scanLines p1At t, scanLines p2At t, scanLines p3At t,
      scanLines p4At t, scanLines p5At t, scanAll p6At t].foldl
      (fun fs ms => ms.foldl processMatch fs) []
    let fields := dictUpdate fields (specialFields t)
    dictUpdate fields (extractCheckboxes t)



/-! #### Key hygiene (Claim C5)

Every key ever inserted by `parse` is a non-empty, `strip`-invariant string
outside the stoplist: the pattern loop filters and normalizes explicitly,
and the special/checkbox extractors only use literal or
literal-plus-counter keys (and stripped alphabetic labels for dates). -/

theorem dropWhile_dropWhile {α : Type} (p : α → Bool) (l : List α) :
    (l.dropWhile p).dropWhile p = l.dropWhile p := by
  induction l with
  | nil => simp
  | cons c cs ih =>
    by_cases h : p c
    · simp [List.dropWhile_cons, h, ih]
    · simp [List.dropWhile_cons, h]

theorem dropWhile_eq_self_head {α : Type} {p : α → Bool} {c : α} {t : List α}
    (h : List.dropWhile p (c :: t) = c :: t) : p c = false := by
  by_cases hp : p c
  · rw [List.dropWhile_cons_of_pos hp] at h
    have h1 := length_dropWhile_le p t
    rw [h] at h1
    simp at h1
  · exact Bool.of_not_eq_true hp

theorem dropWhile_append_single {p : Char → Bool} (xs : List Char) {c : Char}
    (hc : p c = false) : ∃ zs, (xs ++ [c]).dropWhile p = zs ++ [c] := by
  rw [List.dropWhile_append]
  split
  · exact ⟨[], by simp [List.dropWhile_cons, hc]⟩
  · exact ⟨xs.dropWhile p, rfl⟩

theorem pyStripL_eq_self {l : List Char}
    (h1 : l.dropWhile isPySpace = l)
    (h2 : l.reverse.dropWhile isPySpace = l.reverse) : pyStripL l = l := by
  rw [pyStripL, h1, h2, List.reverse_reverse]

theorem pyStripL_cons_of_not_space {c : Char} {t : List Char}
    (hc : isPySpace c = false) : ∃ t', pyStripL (c :: t) = c :: t' := by
  rw [pyStripL, List.dropWhile_cons_of_neg (by simp [hc])]
  obtain ⟨zs, hz⟩ := dropWhile_append_single t.reverse hc
  rw [List.reverse_cons, hz, List.reverse_append]
  exact ⟨zs.reverse, rfl⟩

theorem pyStripL_idem (l : List Char) : pyStripL (pyStripL l) = pyStripL l := by
  have hL : (l.dropWhile isPySpace).dropWhile isPySpace = l.dropWhile isPySpace :=
    dropWhile_dropWhile _ _
  apply pyStripL_eq_self
  · cases hp : pyStripL l with
    | nil => simp
    | cons c t' =>
      have hdec : pyStripL l ++ ((l.dropWhile isPySpace).reverse.takeWhile isPySpace).reverse
          = l.dropWhile isPySpace := by
        rw [pyStripL, ← List.reverse_append, List.takeWhile_append_dropWhile,
          List.reverse_reverse]
      rw [hp] at hdec
      have hcfalse : isPySpace c = false := by
        apply dropWhile_eq_self_head
          (t := t' ++ ((l.dropWhile isPySpace).reverse.takeWhile isPySpace).reverse)
        rw [← List.cons_append, hdec]
        exact hL
      exact List.dropWhile_cons_of_neg (by simp [hcfalse])
  · rw [pyStripL, List.reverse_reverse]
    exact dropWhile_dropWhile _ _

theorem pyStrip_idem (s : String) : pyStrip (pyStrip s) = pyStrip s := by
  show (⟨pyStripL (pyStripL s.data)⟩ : String) = ⟨pyStripL s.data⟩
  rw [pyStripL_idem]

theorem string_ne_empty {s : String} (h : s.data ≠ []) : s ≠ "" := by
  intro he
  exact h (he ▸ rfl)

theorem alpha_not_space {c : Char} (h : isAsciiAlpha c = true) :
    isPySpace c = false := by
  simp only [isAsciiAlpha, Bool.or_eq_true, Bool.and_eq_true,
    decide_eq_true_eq] at h
  have hA : ('A' : Char) ≤ c := by
    rcases h with ⟨h1, _⟩ | ⟨h1, _⟩
    · exact le_trans (by decide) h1
    · exact h1
  simp only [isPySpace, Bool.or_eq_false_iff, decide_eq_false_iff_not]
  refine ⟨⟨⟨⟨⟨?_, ?_⟩, ?_⟩, ?_⟩, ?_⟩, ?_⟩ <;> intro he <;> subst he <;>
    revert hA <;> decide

theorem isPySpace_digitChar (n : Nat) : isPySpace (Nat.digitChar n) = false := by
  rcases Nat.lt_or_ge n 16 with h | h
  · interval_cases n <;> decide
  · rw [Nat.digitChar]
    repeat rw [if_neg (by omega)]
    decide

theorem toDigitsCore_not_space :
    ∀ (fuel b n : Nat) (ds : List Char),
      (∀ c ∈ ds, isPySpace c = false) →
      ∀ c ∈ Nat.toDigitsCore b fuel n ds, isPySpace c = false := by
  intro fuel
  induction fuel with
  | zero => intro b n ds h; simpa [Nat.toDigitsCore] using h
  | succ f ih =>
    intro b n ds h c hc
    simp only [Nat.toDigitsCore] at hc
    split at hc
    · rcases List.mem_cons.mp hc with rfl | hm
      · exact isPySpace_digitChar _
      · exact h c hm
    · refine ih b (n / b) _ ?_ c hc
      intro d hd
      rcases List.mem_cons.mp hd with rfl | hm
      · exact isPySpace_digitChar _
      · exact h d hm

theorem toDigitsCore_ne_nil :
    ∀ (fuel b n : Nat) (ds : List Char), ds ≠ [] →
      Nat.toDigitsCore b fuel n ds ≠ [] := by
  intro fuel
  induction fuel with
  | zero => intro b n ds h; simpa [Nat.toDigitsCore] using h
  | succ f ih =>
    intro b n ds h
    simp only [Nat.toDigitsCore]
    split
    · simp
    · exact ih b (n / b) _ (by simp)

theorem natStr_not_space (n : Nat) :
    ∀ c ∈ (natStr n).data, isPySpace c = false :=
  toDigitsCore_not_space (n + 1) 10 n [] (by intro c hc; cases hc)

theorem natStr_data_ne_nil (n : Nat) : (natStr n).data ≠ [] := by
  show Nat.toDigitsCore 10 (n + 1) n [] ≠ []
  simp only [Nat.toDigitsCore]
  split
  · simp
  · exact toDigitsCore_ne_nil n 10 (n / 10) _ (by simp)

theorem stoplist_short : ∀ s ∈ fieldStoplist, s.data.length ≤ 3 := by decide

theorem pyLower_length (s : String) :
    (pyLower s).data.length = s.data.length := by
  simp [pyLower]

theorem long_not_stoplist {k : String} (h : 3 < k.data.length) :
    fieldStoplist.contains (pyLower k) = false := by
  by_contra hc
  rw [Bool.not_eq_false] at hc
  have hm : pyLower k ∈ fieldStoplist := by simpa using hc
  have h3 := stoplist_short _ hm
  rw [pyLower_length] at h3
  omega

/-- The key-hygiene invariant of Claim C5: a field name is non-empty,
fixed by `str.strip()`, and not on the generic stoplist. -/
def goodKey (k : String) : Prop :=
  k ≠ "" ∧ pyStrip k = k ∧ fieldStoplist.contains (pyLower k) = false

theorem dictSet_keys {P : String → Prop} {m : FieldMap} {k : String} {v : PVal}
    (hm : ∀ kv ∈ m, P kv.1) (hk : P k) : ∀ kv ∈ dictSet m k v, P kv.1 := by
  intro kv hkv
  rw [dictSet] at hkv
  split at hkv
  · obtain ⟨kv0, hkv0, heq⟩ := List.mem_map.mp hkv
    by_cases h0 : kv0.1 = k
    · rw [if_pos h0] at heq
      rw [← heq]
      exact hk
    · rw [if_neg h0] at heq
      rw [← heq]
      exact hm kv0 hkv0
  · rcases List.mem_append.mp hkv with hl | hr
    · exact hm kv hl
    · rcases List.mem_singleton.mp hr with rfl
      exact hk

theorem foldl_keys {α : Type} {P : String → Prop}
    {step : FieldMap → α → FieldMap} :
    ∀ (l : List α),
      (∀ fs a, a ∈ l → (∀ kv ∈ fs, P kv.1) → ∀ kv ∈ step fs a, P kv.1) →
      ∀ (init : FieldMap), (∀ kv ∈ init, P kv.1) →
        ∀ kv ∈ l.foldl step init, P kv.1 := by
  intro l
  induction l with
  | nil => intro _ init h; simpa using h
  | cons a as ih =>
    intro hstep init h
    rw [List.foldl_cons]
    exact ih (fun fs b hb => hstep fs b (List.mem_cons_of_mem _ hb))
      (step init a) (hstep init a (List.mem_cons_self _ _) h)

theorem dictUpdate_keys {P : String → Prop} {m other : FieldMap}
    (hm : ∀ kv ∈ m, P kv.1) (ho : ∀ kv ∈ other, P kv.1) :
    ∀ kv ∈ dictUpdate m other, P kv.1 := by
  rw [dictUpdate]
  exact foldl_keys other
    (fun fs a ha hfs => dictSet_keys hfs (ho a ha)) m hm

theorem processMatch_keys {fields : FieldMap} (g : List Char × List Char)
    (h : ∀ kv ∈ fields, goodKey kv.1) :
    ∀ kv ∈ processMatch fields g, goodKey kv.1 := by
  intro kv hkv
  simp only [processMatch] at hkv
  split at hkv
  · exact h kv hkv
  · split at hkv
    · exact h kv hkv
    · split at hkv
      · rename_i h500 hstop hne
        refine dictSet_keys h ?_ kv hkv
        refine ⟨hne.1, ?_, Bool.of_not_eq_true hstop⟩
        rw [normalizeFieldName]
        exact pyStrip_idem _
      · exact h kv hkv



theorem labelAt_shape {l : List Char} {g : List Char}
    (h : labelAt l = some g) :
    ∃ c t, g = c :: t ∧ isAsciiAlpha c = true := by
  match l with
  | [] => exact absurd h (by simp [labelAt])
  | c :: cs =>
    rw [labelAt] at h
    by_cases hca : isAsciiAlpha c = true
    · rw [if_pos hca] at h
      simp only [] at h
      refine ⟨c, ?_⟩
      split at h
      · rename_i g' hwg
        split at hwg
        · split at hwg
          · split at hwg
            · split at hwg
              · rw [Option.some_inj] at hwg h
                exact ⟨_, by rw [← h, ← hwg, List.cons_append,
                  List.cons_append], hca⟩
              · exact absurd hwg (by simp)
            · exact absurd hwg (by simp)
          · exact absurd hwg (by simp)
        · exact absurd hwg (by simp)
      · split at h
        · rw [Option.some_inj] at h
          exact ⟨_, by rw [← h], hca⟩
        · exact absurd h (by simp)
    · rw [if_neg hca] at h
      exact absurd h (by simp)

theorem labelSearchF_shape :
    ∀ (fuel : Nat) (l : List Char) (g : List Char),
      labelSearchF fuel l = some g →
      ∃ c t, g = c :: t ∧ isAsciiAlpha c = true := by
  intro fuel
  induction fuel with
  | zero => intro l g h; exact absurd h (by simp [labelSearchF])
  | succ f ih =>
    intro l g h
    match l with
    | [] => exact absurd h (by simp [labelSearchF])
    | c :: cs =>
      rw [labelSearchF] at h
      split at h
      · rename_i g' hat
        rw [Option.some_inj] at h
        exact h ▸ labelAt_shape hat
      · exact ih cs g h

theorem labelSearch_shape {l g : List Char} (h : labelSearch l = some g) :
    ∃ c t, g = c :: t ∧ isAsciiAlpha c = true :=
  labelSearchF_shape _ _ _ h

theorem goodKey_lit_Email : goodKey "Email" :=
  ⟨by decide, by decide, by decide⟩

theorem goodKey_lit_Phone : goodKey "Phone" :=
  ⟨by decide, by decide, by decide⟩

theorem goodKey_lit_SSN : goodKey "SSN" :=
  ⟨by decide, by decide, by decide⟩

theorem goodKey_lit_Selected : goodKey "Selected Options" :=
  ⟨by decide, by decide, by decide⟩

theorem goodKey_lit_Unselected : goodKey "Unselected Options" :=
  ⟨by decide, by decide, by decide⟩

theorem goodKey_append_natStr (pre : String) (n : Nat) (c : Char)
    (t : List Char) (hdata : pre.data = c :: t) (hcs : isPySpace c = false)
    (hl : 3 < pre.data.length) : goodKey (pre ++ natStr n) := by
  have hdn : (natStr n).data ≠ [] := natStr_data_ne_nil n
  have happ : (pre ++ natStr n).data = pre.data ++ (natStr n).data :=
    String.data_append _ _
  refine ⟨?_, ?_, ?_⟩
  · apply string_ne_empty
    rw [happ, hdata]
    simp
  · show pyStrip _ = _
    have hps : pyStripL ((pre ++ natStr n).data) = (pre ++ natStr n).data := by
      apply pyStripL_eq_self
      · rw [happ, hdata]
        exact List.dropWhile_cons_of_neg (by simp [hcs])
      · obtain ⟨d, ds, hrev⟩ : ∃ d ds, (natStr n).data.reverse = d :: ds := by
          cases hr : (natStr n).data.reverse with
          | nil => exact absurd (by simpa using hr) hdn
          | cons d ds => exact ⟨d, ds, rfl⟩
        have hd : isPySpace d = false := by
          apply natStr_not_space n
          rw [← List.mem_reverse, hrev]
          simp
        rw [happ, List.reverse_append, hrev]
        exact List.dropWhile_cons_of_neg (by simp [hd])
    rw [pyStrip, hps]
  · apply long_not_stoplist
    rw [happ, List.length_append]
    omega

theorem goodKey_dateLabel {g : List Char} {c : Char} {t : List Char}
    (hg : g = c :: t) (hca : isAsciiAlpha c = true) :
    goodKey ((⟨pyStripL g⟩ : String) ++ " Date") := by
  subst hg
  have hcs : isPySpace c = false := alpha_not_space hca
  obtain ⟨t', ht'⟩ := pyStripL_cons_of_not_space (t := t) hcs
  have hdata : ((⟨pyStripL (c :: t)⟩ : String) ++ " Date").data
      = pyStripL (c :: t) ++ " Date".data := String.data_append _ _
  refine ⟨?_, ?_, ?_⟩
  · apply string_ne_empty
    rw [hdata, ht']
    simp
  · show pyStrip _ = _
    have hps : pyStripL (((⟨pyStripL (c :: t)⟩ : String) ++ " Date").data)
        = ((⟨pyStripL (c :: t)⟩ : String) ++ " Date").data := by
      apply pyStripL_eq_self
      · rw [hdata, ht']
        exact List.dropWhile_cons_of_neg (by simp [hcs])
      · rw [hdata, List.reverse_append]
        have hrev : (" Date".data.reverse : List Char) = ['e','t','a','D',' '] := by
          decide
        rw [hrev, List.cons_append]
        exact List.dropWhile_cons_of_neg (by decide)
    rw [pyStrip, hps]
  · apply long_not_stoplist
    rw [hdata, List.length_append]
    have h5 : (" Date".data.length : Nat) = 5 := by decide
    omega

theorem emailStage_keys (es : List (List Char)) (init : FieldMap)
    (h : ∀ kv ∈ init, goodKey kv.1) :
    ∀ kv ∈ ((match es with
      | [] => init
      | [e] => dictSet init "Email" (.pstr ⟨e⟩)
      | es => es.enum.foldl (fun fs (ie : Nat × List Char) =>
          dictSet fs ("Email " ++ natStr (ie.1 + 1)) (.pstr ⟨ie.2⟩)) init :
        FieldMap)),
      goodKey kv.1 := by
  match es with
  | [] => exact h
  | [e] => exact dictSet_keys h goodKey_lit_Email
  | e1 :: e2 :: es2 =>
    refine foldl_keys _ (fun fs ie _ hfs => ?_) _ h
    exact dictSet_keys hfs
      (goodKey_append_natStr "Email " _ 'E' _ rfl (by decide) (by decide))

theorem phoneStage_keys (ps : List (List Char)) (init : FieldMap)
    (h : ∀ kv ∈ init, goodKey kv.1) :
    ∀ kv ∈ ((match ps with
      | [] => init
      | [p] => dictSet init "Phone" (.pstr ⟨p⟩)
      | ps => ps.enum.foldl (fun fs (ip : Nat × List Char) =>
          dictSet fs ("Phone " ++ natStr (ip.1 + 1)) (.pstr ⟨ip.2⟩)) init :
        FieldMap)),
      goodKey kv.1 := by
  match ps with
  | [] => exact h
  | [p] => exact dictSet_keys h goodKey_lit_Phone
  | p1 :: p2 :: ps2 =>
    refine foldl_keys _ (fun fs ip _ hfs => ?_) _ h
    exact dictSet_keys hfs
      (goodKey_append_natStr "Phone " _ 'P' _ rfl (by decide) (by decide))

theorem ssnStage_keys (ss : List (List Char)) (init : FieldMap)
    (h : ∀ kv ∈ init, goodKey kv.1) :
    ∀ kv ∈ (if ss = [] then init
      else ss.enum.foldl (fun fs is =>
        let masked := "XXX-XX-" ++ (⟨is.2.drop (is.2.length - 4)⟩ : String)
        let key := if ss.length = 1 then "SSN" else "SSN " ++ natStr (is.1 + 1)
        dictSet fs key (.pstr masked)) init),
      goodKey kv.1 := by
  split
  · exact h
  · refine foldl_keys _ (fun fs is _ hfs => ?_) _ h
    intro kv hkv
    simp only [] at hkv
    by_cases h1 : ss.length = 1
    · rw [if_pos h1] at hkv
      exact dictSet_keys hfs goodKey_lit_SSN kv hkv
    · rw [if_neg h1] at hkv
      exact dictSet_keys hfs
        (goodKey_append_natStr "SSN " _ 'S' _ rfl (by decide) (by decide)) kv hkv

theorem specialFields_keys (text : List Char) :
    ∀ kv ∈ specialFields text, goodKey kv.1 := by
  rw [specialFields]
  simp only []
  refine foldl_keys _ (fun fs m _ hfs => ?_) _ ?_
  · refine foldl_keys _ (fun fs2 pm _ hfs2 => ?_) _ hfs
    intro kv hkv
    simp only [] at hkv
    split at hkv
    · rename_i g hls
      split at hkv
      · exact hfs2 kv hkv
      · obtain ⟨c, t, hg, hca⟩ := labelSearch_shape hls
        exact dictSet_keys hfs2 (goodKey_dateLabel hg hca) kv hkv
    · exact hfs2 kv hkv
  · exact ssnStage_keys _ _ (phoneStage_keys _ _ (emailStage_keys _ _
      (fun kv hkv => absurd hkv (List.not_mem_nil _))))

theorem extractCheckboxes_keys (text : List Char) :
    ∀ kv ∈ extractCheckboxes text, goodKey kv.1 := by
  rw [extractCheckboxes]
  simp only []
  intro kv hkv
  split at hkv
  · refine dictSet_keys (fun kv2 hkv2 => ?_) goodKey_lit_Unselected kv hkv
    split at hkv2
    · exact dictSet_keys (fun kv3 hkv3 => absurd hkv3 (List.not_mem_nil _))
        goodKey_lit_Selected kv2 hkv2
    · exact absurd hkv2 (List.not_mem_nil _)
  · split at hkv
    · exact dictSet_keys (fun kv3 hkv3 => absurd hkv3 (List.not_mem_nil _))
        goodKey_lit_Selected kv hkv
    · exact absurd hkv (List.not_mem_nil _)

theorem parse_keys_aux (text : String) : ∀ kv ∈ parse text, goodKey kv.1 := by
  intro kv hkv
  rw [parse] at hkv
  split at hkv
  · exact absurd hkv (List.not_mem_nil _)
  · simp only [] at hkv
    have hbase : ∀ kv2 ∈ [scanLines p1At text.data, scanLines p2At text.data,
        scanLines p3At text.data, scanLines p4At text.data,
        scanLines p5At text.data, scanAll p6At text.data].foldl
        (fun fs ms => ms.foldl processMatch fs) [], goodKey kv2.1 := by
      refine foldl_keys _ (fun fs ms _ hfs => ?_) _
        (fun kv2 hkv2 => absurd hkv2 (List.not_mem_nil _))
      exact foldl_keys _ (fun fs2 g _ hfs2 => processMatch_keys g hfs2) _ hfs
    exact dictUpdate_keys (dictUpdate_keys hbase (specialFields_keys _))
      (extractCheckboxes_keys _) kv hkv



/-- Claim C5: for every input text, `parse` (the model of
`FieldParser.parse`, a total function, so the embedding itself witnesses
that extraction never raises) returns a `FieldMap` in which every key is a
non-empty trimmed string outside the generic stoplist, and the empty text
(no matches) yields the empty `FieldMap`. -/
theorem parse_keys_good (text : String) :
    (∀ kv ∈ parse text, goodKey kv.1) ∧ parse "" = [] :=
  ⟨parse_keys_aux text, rfl⟩

/-- Witness for Claim C5: on the concrete text `"Name: John"` the parser
produces the entry `("Name", "John")`, and the theorem yields `goodKey
"Name"`. -/
theorem parse_keys_good_witness :
    ("Name", FormAnalyser.PVal.pstr "John") ∈ parse "Name: John" ∧
      goodKey "Name" :=
  ⟨by decide, (parse_keys_good "Name: John").1
    ("Name", FormAnalyser.PVal.pstr "John") (by decide)⟩



/-- Claim C1: refuted.  On the input `"Social Security: 123-45-6789"` the
label/value pattern loop stores the raw SSN-shaped digits verbatim as the
value of the captured `"Social Security"` field, even though the special
extractor also stores the masked `"SSN"` entry: the raw digits *do* appear
verbatim in a field value of the returned `FieldMap`. -/
theorem parse_c1_ssn_leak :
    parse "Social Security: 123-45-6789" =
      [("Social Security", FormAnalyser.PVal.pstr "123-45-6789"),
       ("SSN", FormAnalyser.PVal.pstr "XXX-XX-6789")] ∧
    ∃ kv ∈ parse "Social Security: 123-45-6789",
      FormAnalyser.containsSub "123-45-6789" (FormAnalyser.pyStr kv.2) = true := by
  constructor
  · decide
  · exact ⟨("Social Security", FormAnalyser.PVal.pstr "123-45-6789"),
      by decide, by decide⟩

end FieldParser
